import Mathlib

/-!
Verification of the `anyrouter_proxy` repository (src/app.py) against its
natural-language specification.

Python strings are modelled as `List Char` where character-level computation
matters, and as `String` where only whole values matter.  Machine integers are
`Nat`/`Int` with explicit `% 2 ^ w` where overflow matters.  Python code that
can raise an uncaught exception is modelled with `Except Unit`.
-/

set_option maxRecDepth 4000

/-! ## Basic Python string helpers -/

/-- Model of Python `str.lower()` restricted to character-wise lowering
(all relevant uses involve ASCII data). -/
def pyLower (s : List Char) : List Char := s.map Char.toLower

/-- Model of Python `needle in hay` on strings: contiguous-substring test
(`True` for the empty needle, as in Python). -/
def pyContains : (hay : List Char) → (needle : List Char) → Bool
  | hay, needle =>
    needle.isPrefixOf hay ||
      match hay with
      | [] => false
      | _ :: t => pyContains t needle

/-! ## 4.A Challenge solver (`solve_acw_challenge`, src/app.py:17-49) -/

/-- `int(c, 16)` semantics for a single hex digit; the Python code only ever
parses digits matched by `[A-F0-9]` (and the decimal mask), so the final
branch (where `int` would raise `ValueError`) is unreachable in context. -/
def hexVal (c : Char) : Nat :=
  let n := c.toNat
  if 48 ≤ n ∧ n ≤ 57 then n - 48
  else if 65 ≤ n ∧ n ≤ 70 then n - 55
  else if 97 ≤ n ∧ n ≤ 102 then n - 87
  else 0

/-- `int(s, 16)` for a nonempty hex string (0 on the empty string, which the
solver never passes). -/
def intHex (cs : List Char) : Nat := cs.foldl (fun n c => 16 * n + hexVal c) 0

/-- Lowercase hex digits, used by Python `hex()` rendering. -/
def hexDigitChar (n : Nat) : Char :=
  "0123456789abcdef".data.getD n '0'

/-- Model of `hex(n)[2:]` for a natural number: lowercase hex digits without
leading zeros (`"0"` for zero). -/
def genHex (n : Nat) : List Char :=
  if h : n < 16 then [hexDigitChar n]
  else genHex (n / 16) ++ [hexDigitChar (n % 16)]
decreasing_by
  exact Nat.div_lt_self (by omega) (by omega)

/-- Is `c` an uppercase-hex character, i.e. matched by the class `[A-F0-9]`. -/
def isUpHexB (c : Char) : Bool :=
  (decide (48 ≤ c.toNat) && decide (c.toNat ≤ 57)) ||
  (decide (65 ≤ c.toNat) && decide (c.toNat ≤ 70))

/-- The literal prefix `var arg1='` of the regex `var arg1='([A-F0-9]+)'`. -/
def arg1Needle : List Char := ['v','a','r',' ','a','r','g','1','=','\'']

/-- Attempt of the regex `var arg1='([A-F0-9]+)'` anchored at the head of `l`:
the literal prefix, then a maximal nonempty run of `[A-F0-9]`, then `'`.
(With a greedy `+` followed by a literal quote, a match at this position
exists iff the maximal run is nonempty and is followed by a quote.) -/
def matchArg1At (l : List Char) : Option (List Char) :=
  if l.take 10 = arg1Needle then
    let rest := l.drop 10
    let run := rest.takeWhile isUpHexB
    if run.isEmpty then none
    else if (rest.drop run.length).head? = some '\'' then some run
    else none
  else none

/-- `re.search(r"var arg1='([A-F0-9]+)'", html)`: leftmost match wins. -/
def findArg1 : List Char → Option (List Char)
  | [] => none
  | c :: t =>
    match matchArg1At (c :: t) with
    | some r => some r
    | none => findArg1 t

/-- The fixed 40-element permutation table `posList` (src/app.py:30). -/
def posList : List Nat :=
  [0xf,0x23,0x1d,0x18,0x21,0x10,0x1,0x26,0xa,0x9,0x13,0x1f,0x28,0x1b,0x16,
   0x17,0x19,0xd,0x6,0xb,0x27,0x12,0x14,0x8,0xe,0x15,0x20,0x1a,0x2,0x1e,
   0x7,0x4,0x11,0x5,0x3,0x1c,0x22,0x25,0xc,0x24]

/-- Base64 alphabet for `base64.b64decode`. -/
def b64Alphabet : List Char :=
  "ABCDEFGHIJKLMNOPQRSTUVWXYZabcdefghijklmnopqrstuvwxyz0123456789+/".data

def b64Val (c : Char) : Nat := b64Alphabet.indexOf c

/-- Decode groups of 4 base64 characters (padding already stripped) to bytes. -/
def b64Groups : List Char → List Nat
  | a :: b :: c :: d :: rest =>
    let n := b64Val a * 2 ^ 18 + b64Val b * 2 ^ 12 + b64Val c * 2 ^ 6 + b64Val d
    (n / 2 ^ 16) % 256 :: (n / 2 ^ 8) % 256 :: n % 256 :: b64Groups rest
  | [a, b, c] =>
    let n := b64Val a * 2 ^ 18 + b64Val b * 2 ^ 12 + b64Val c * 2 ^ 6
    [(n / 2 ^ 16) % 256, (n / 2 ^ 8) % 256]
  | [a, b] =>
    let n := b64Val a * 2 ^ 18 + b64Val b * 2 ^ 12
    [(n / 2 ^ 16) % 256]
  | _ => []

/-- `base64.b64decode(s)` for a well-formed input. -/
def b64Decode (s : List Char) : List Nat := b64Groups (s.filter (· ≠ '='))

/-- The constant `mask_b64` of the solver (src/app.py:27). -/
def maskB64 : List Char :=
  "MzAwMDE3NjAwMDg1NjAwNjA2MTUwMTUzMzAwMzY5MDAyNzgwMDM3NQ==".data

/-- `mask = base64.b64decode(mask_b64).decode()`; all bytes are ASCII, so the
UTF-8 decode is byte-wise `Char.ofNat`. -/
def maskChars : List Char := (b64Decode maskB64).map Char.ofNat

/-- One pass of the inner loop `for j in range(len(posList)): if posList[j]
== i+1: outPutList[j] = arg1[i]` (src/app.py:34-36), with `tgt = i + 1`. -/
def fillStep (out : List (List Char)) (tgt : Nat) (c : Char) :
    List (List Char) :=
  (posList.zip out).map (fun p => if p.1 = tgt then [c] else p.2)

/-- The full double loop of src/app.py:32-36 building `outPutList` starting
from `[''] * len(posList)`. -/
def fillAll (arg1 : List Char) : List (List Char) :=
  arg1.enum.foldl (fun out ic => fillStep out (ic.1 + 1) ic.2)
    (List.replicate 40 [])

/-- One iteration of the XOR loop (src/app.py:41-47): parse the 2-character
slices at offset `i` of `arg2` and of the mask, XOR, render as (zero-padded)
lowercase hex. -/
def xorPairStr (a m : List Char) (i : Nat) : List Char :=
  let s := intHex ((a.drop i).take 2)
  let mc := intHex ((m.drop i).take 2)
  let h := genHex (s ^^^ mc)
  if h.length = 1 then '0' :: h else h

/-- The token computed from a captured `arg1` (src/app.py:26-49): permutation
fill, join, then pairwise XOR against the mask. -/
def acwToken (arg1 : List Char) : List Char :=
  let arg2 := (fillAll arg1).flatten
  let m := min arg2.length maskChars.length
  ((List.range ((m + 1) / 2)).map (fun t => xorPairStr arg2 maskChars (2 * t))).flatten

/-- `solve_acw_challenge(html_content)` (src/app.py:17-49). -/
def solve_acw_challenge (html : List Char) : Option (List Char) :=
  (findArg1 html).map acwToken

/-- Is `c` a lowercase-hex character (`[0-9a-f]`). -/
def isLowHexB (c : Char) : Bool :=
  (decide (48 ≤ c.toNat) && decide (c.toNat ≤ 57)) ||
  (decide (97 ≤ c.toNat) && decide (c.toNat ≤ 102))

/-! ### Claim C1: lemmas about the solver -/

lemma hexVal_lt (c : Char) : hexVal c < 16 := by
  simp only [hexVal]
  split_ifs <;> omega

lemma intHex_fold_lt (cs : List Char) :
    ∀ n, cs.foldl (fun n c => 16 * n + hexVal c) n < (n + 1) * 16 ^ cs.length := by
  induction cs with
  | nil => intro n; simpa using Nat.lt_succ_self n
  | cons c t ih =>
    intro n
    simp only [List.foldl_cons, List.length_cons]
    calc t.foldl (fun n c => 16 * n + hexVal c) (16 * n + hexVal c)
        < (16 * n + hexVal c + 1) * 16 ^ t.length := ih _
      _ ≤ ((n + 1) * 16) * 16 ^ t.length := by
          have := hexVal_lt c
          exact Nat.mul_le_mul_right _ (by omega)
      _ = (n + 1) * 16 ^ (t.length + 1) := by ring

lemma intHex_lt (cs : List Char) : intHex cs < 16 ^ cs.length := by
  simpa [intHex] using intHex_fold_lt cs 0

lemma intHex_take2_lt (a : List Char) (i : Nat) :
    intHex ((a.drop i).take 2) < 256 := by
  have h := intHex_lt ((a.drop i).take 2)
  have hlen : ((a.drop i).take 2).length ≤ 2 := by
    simpa using List.length_take_le 2 (a.drop i)
  calc intHex ((a.drop i).take 2) < 16 ^ ((a.drop i).take 2).length := h
    _ ≤ 16 ^ 2 := Nat.pow_le_pow_right (by omega) hlen
    _ = 256 := by norm_num

lemma hexDigitChar_lowHex : ∀ n, n < 16 → isLowHexB (hexDigitChar n) = true := by
  decide

lemma genHex_small {n : Nat} (h : n < 16) : genHex n = [hexDigitChar n] := by
  rw [genHex]
  simp [h]

lemma genHex_mid {n : Nat} (h16 : ¬ n < 16) (h : n < 256) :
    genHex n = [hexDigitChar (n / 16), hexDigitChar (n % 16)] := by
  rw [genHex]
  simp only [h16, dite_false]
  rw [genHex_small (Nat.div_lt_of_lt_mul (by omega))]
  rfl

lemma xorPairStr_spec (a m : List Char) (i : Nat) :
    (xorPairStr a m i).length = 2 ∧ ∀ c ∈ xorPairStr a m i, isLowHexB c = true := by
  have hs := intHex_take2_lt a i
  have hm := intHex_take2_lt m i
  have hx : (intHex ((a.drop i).take 2)) ^^^ (intHex ((m.drop i).take 2)) < 256 := by
    have h := Nat.xor_lt_two_pow (n := 8) (by simpa using hs) (by simpa using hm)
    simpa using h
  simp only [xorPairStr]
  by_cases h16 : (intHex ((a.drop i).take 2)) ^^^ (intHex ((m.drop i).take 2)) < 16
  · rw [genHex_small h16]
    refine ⟨rfl, ?_⟩
    intro c hc
    simp only [List.length_singleton, if_true] at hc
    rcases List.mem_cons.mp hc with h | h
    · subst h; decide
    · simp only [List.mem_singleton] at h
      subst h
      exact hexDigitChar_lowHex _ h16
  · rw [genHex_mid h16 hx]
    refine ⟨rfl, ?_⟩
    intro c hc
    simp only [List.length_cons, List.length_singleton] at hc
    norm_num at hc
    rcases hc with h | h <;> subst h
    · exact hexDigitChar_lowHex _ (Nat.div_lt_of_lt_mul (by omega))
    · exact hexDigitChar_lowHex _ (Nat.mod_lt _ (by omega))

lemma posList_length : posList.length = 40 := rfl

lemma fillStep_length {out : List (List Char)} (h : out.length = 40)
    (tgt : Nat) (c : Char) : (fillStep out tgt c).length = 40 := by
  simp [fillStep, h, posList_length]

lemma fillStep_getD {out : List (List Char)} (hout : out.length = 40)
    (tgt : Nat) (c : Char) {j : Nat} (hj : j < 40) :
    (fillStep out tgt c).getD j [] =
      if posList.getD j 0 = tgt then [c] else out.getD j [] := by
  have hzip : j < (posList.zip out).length := by
    rw [List.length_zip, posList_length, hout]; omega
  have hmap : j < ((posList.zip out).map
      (fun p => if p.1 = tgt then [c] else p.2)).length := by
    rw [List.length_map]; exact hzip
  rw [fillStep, List.getD_eq_getElem _ _ hmap]
  rw [List.getElem_map, List.getElem_zip]
  rw [List.getD_eq_getElem _ _ (by rw [posList_length]; omega : j < posList.length),
    List.getD_eq_getElem _ _ (by rw [hout]; omega : j < out.length)]

lemma fill_fold_inv (l : List Char) :
    ∀ (s : Nat) (out : List (List Char)), out.length = 40 →
    (∀ j, j < 40 → posList.getD j 0 ≤ s → (out.getD j []).length = 1) →
    ((l.enumFrom s).foldl (fun o ic => fillStep o (ic.1 + 1) ic.2) out).length = 40 ∧
    (∀ j, j < 40 → posList.getD j 0 ≤ s + l.length →
      (((l.enumFrom s).foldl (fun o ic => fillStep o (ic.1 + 1) ic.2) out).getD j []).length = 1) := by
  induction l with
  | nil =>
    intro s out hlen hinv
    simp only [List.enumFrom_nil, List.foldl_nil, List.length_nil, Nat.add_zero]
    exact ⟨hlen, hinv⟩
  | cons c t ih =>
    intro s out hlen hinv
    rw [List.enumFrom_cons]
    simp only [List.foldl_cons, List.length_cons]
    have hstep : (fillStep out (s + 1) c).length = 40 := fillStep_length hlen _ _
    have hstepinv : ∀ j, j < 40 → posList.getD j 0 ≤ s + 1 →
        ((fillStep out (s + 1) c).getD j []).length = 1 := by
      intro j hj hle
      rw [fillStep_getD hlen _ _ hj]
      by_cases he : posList.getD j 0 = s + 1
      · rw [if_pos he]
        rfl
      · rw [if_neg he]
        exact hinv j hj (by omega)
    have := ih (s + 1) (fillStep out (s + 1) c) hstep hstepinv
    exact ⟨this.1, fun j hj hle => this.2 j hj (by omega)⟩

lemma posList_pos : ∀ j, j < 40 → 1 ≤ posList.getD j 0 := by decide

lemma posList_le40 : ∀ j, j < 40 → posList.getD j 0 ≤ 40 := by decide

lemma fillAll_spec {a : List Char} (ha : a.length = 40) :
    (fillAll a).length = 40 ∧ ∀ j, j < 40 → ((fillAll a).getD j []).length = 1 := by
  have hbase : ∀ j, j < 40 → posList.getD j 0 ≤ 0 →
      ((List.replicate 40 ([] : List Char)).getD j []).length = 1 := by
    intro j hj hle
    exact absurd hle (by have := posList_pos j hj; omega)
  have h := fill_fold_inv a 0 (List.replicate 40 []) (by simp) hbase
  have henum : a.enum = a.enumFrom 0 := rfl
  rw [fillAll, henum]
  exact ⟨h.1, fun j hj => h.2 j hj (by simpa [ha] using posList_le40 j hj)⟩

lemma sum_lengths_one (L : List (List Char)) :
    ∀ n, L.length = n → (∀ j, j < n → (L.getD j []).length = 1) →
    (L.map List.length).sum = n := by
  induction L with
  | nil =>
    intro n hn _
    simp only [List.length_nil] at hn
    simp only [List.map_nil, List.sum_nil]
    exact hn
  | cons x t ih =>
    intro n hn hone
    cases n with
    | zero => simp at hn
    | succ m =>
      have hx : x.length = 1 := by simpa using hone 0 (by omega)
      have ht := ih m (by simpa using hn) (fun j hj => by
        simpa using hone (j + 1) (by omega))
      simp [hx, ht]
      omega

lemma flatten_constLen {α : Type} (L : List (List α)) (c : Nat)
    (h : ∀ x ∈ L, x.length = c) : L.flatten.length = c * L.length := by
  induction L with
  | nil => simp
  | cons x t ih =>
    have hx := h x (by simp)
    have ht := ih (fun y hy => h y (by simp [hy]))
    simp [hx, ht]
    ring

lemma maskChars_length : maskChars.length = 40 := by decide

lemma acwToken_spec {a : List Char} (ha : a.length = 40) :
    (acwToken a).length = 40 ∧ ∀ c ∈ acwToken a, isLowHexB c = true := by
  have hfill := fillAll_spec ha
  have harg2 : (fillAll a).flatten.length = 40 := by
    rw [List.length_flatten]
    exact sum_lengths_one _ 40 hfill.1 hfill.2
  constructor
  · simp only [acwToken]
    rw [flatten_constLen _ 2]
    · simp [harg2, maskChars_length]
    · intro x hx
      rcases List.mem_map.mp hx with ⟨t, _, rfl⟩
      exact (xorPairStr_spec _ _ _).1
  · intro c hc
    simp only [acwToken] at hc
    rcases List.mem_flatten.mp hc with ⟨x, hxL, hcx⟩
    rcases List.mem_map.mp hxL with ⟨t, _, rfl⟩
    exact (xorPairStr_spec _ _ _).2 c hcx

/-- C1.  For every HTML string: if the pattern `var arg1='<hex>'` has no
match, `solve_acw_challenge` returns none; if it matches with captured group
`a`, the solver deterministically returns the token `acwToken a` computed
from the fixed permutation table and the base64-decoded mask, and when `a`
has 40 hex characters that token is a 40-character lowercase-hex string. -/
theorem C1_challenge_solver (html : List Char) :
    (findArg1 html = none → solve_acw_challenge html = none) ∧
    (∀ a, findArg1 html = some a →
      solve_acw_challenge html = some (acwToken a) ∧
      (a.length = 40 →
        (acwToken a).length = 40 ∧ ∀ c ∈ acwToken a, isLowHexB c = true)) := by
  refine ⟨fun h => by simp [solve_acw_challenge, h], fun a ha => ?_⟩
  refine ⟨by simp [solve_acw_challenge, ha], fun h40 => acwToken_spec h40⟩

/-- The S1 scenario input: HTML containing
`var arg1='3000176000856006061501533003690027800375'`. -/
def s1arg : List Char := "3000176000856006061501533003690027800375".data

def s1html : List Char :=
  "<html> ".data ++ arg1Needle ++ s1arg ++ ['\''] ++ " </html>".data

/-- Witness for C1 at the S1 vector. -/
theorem C1_challenge_solver_witness :
    solve_acw_challenge s1html = some (acwToken s1arg) ∧
    (acwToken s1arg).length = 40 ∧ (∀ c ∈ acwToken s1arg, isLowHexB c = true) := by
  have h := (C1_challenge_solver s1html).2 s1arg (by decide)
  exact ⟨h.1, (h.2 (by decide)).1, (h.2 (by decide)).2⟩

/-! ## 4.F Body rewriter (`process_request_body`, src/app.py:569-644)

JSON values are modelled by `Json`; `json.loads` of the raw request bytes is
supplied abstractly as an `Option Json` argument (`none` models
`JSONDecodeError` / `UnicodeDecodeError`).  Serialization mirrors
`json.dumps(..., ensure_ascii=False, separators=(',', ':'))`.  Python code
paths that raise an uncaught exception are `.error ()`. -/

inductive Json where
  | null : Json
  | bool (value : Bool) : Json
  | num (value : Int) : Json
  | str (value : String) : Json
  | arr (items : List Json) : Json
  | obj (fields : List (String × Json)) : Json

/-- JSON string escaping as performed by `json.dumps` with
`ensure_ascii=False`: only the quote, backslash and control characters are
escaped; all other characters (including non-ASCII) pass through. -/
def escChar (c : Char) : List Char :=
  if c = '"' then ['\\', '"']
  else if c = '\\' then ['\\', '\\']
  else if c = '\n' then ['\\', 'n']
  else if c = '\t' then ['\\', 't']
  else if c = '\r' then ['\\', 'r']
  else if c.toNat = 8 then ['\\', 'b']
  else if c.toNat = 12 then ['\\', 'f']
  else if c.toNat < 32 then
    ['\\', 'u', '0', '0', hexDigitChar (c.toNat / 16), hexDigitChar (c.toNat % 16)]
  else [c]

def escString (s : String) : List Char :=
  ['"'] ++ (s.data.map escChar).flatten ++ ['"']

mutual
/-- `json.dumps(v, ensure_ascii=False, separators=(',', ':'))`. -/
def dumpJ : Json → List Char
  | .null => "null".data
  | .bool true => "true".data
  | .bool false => "false".data
  | .num n => (toString n).data
  | .str s => escString s
  | .arr xs => ['['] ++ dumpArr xs ++ [']']
  | .obj fs => [Char.ofNat 123] ++ dumpObj fs ++ [Char.ofNat 125]

def dumpArr : List Json → List Char
  | [] => []
  | [x] => dumpJ x
  | x :: y :: t => dumpJ x ++ [','] ++ dumpArr (y :: t)

def dumpObj : List (String × Json) → List Char
  | [] => []
  | [(k, v)] => escString k ++ [':'] ++ dumpJ v
  | (k, v) :: f :: t => escString k ++ [':'] ++ dumpJ v ++ [','] ++ dumpObj (f :: t)
end

/-- Python dict lookup `d[k]` / membership, on the association list produced
by `json.loads` (whose keys are distinct): the first matching binding. -/
def jget : List (String × Json) → String → Option Json
  | [], _ => none
  | (k', v) :: t, k => if k' = k then some v else jget t k

/-- Python dict assignment `d[k] = v`: update the first matching binding in
place (keeping the original key and position), else append. -/
def jset : List (String × Json) → String → Json → List (String × Json)
  | [], k, v => [(k, v)]
  | (k', v') :: t, k, v =>
    if k' = k then (k', v) :: t else (k', v') :: jset t k v

/-- Python `len(x)` on a JSON value; `TypeError` for values without a
length (numbers, booleans, `None`). -/
def pyLenJ : Json → Except Unit Nat
  | .str s => .ok s.length
  | .arr xs => .ok xs.length
  | .obj fs => .ok fs.length
  | _ => .error ()

/-- Python `x.lower()` on a JSON value; `AttributeError` unless a string. -/
def pyLowerJ : Json → Except Unit (List Char)
  | .str s => .ok (pyLower s.data)
  | _ => .error ()

/-- `CLAUDE_CODE_KEYWORD = "Claude Code"` (src/app.py:507). -/
def CLAUDE_CODE_KEYWORD : List Char := "Claude Code".data

/-- The element inserted in insert mode (src/app.py:619-625). -/
def insertedElem (r : String) : Json :=
  Json.obj [("type", Json.str "text"), ("text", Json.str r),
            ("cache_control", Json.obj [("type", Json.str "ephemeral")])]

/-- `process_request_body(body)` (src/app.py:569-644), with the module
configuration `SYSTEM_PROMPT_REPLACEMENT` (`repl`) and
`SYSTEM_PROMPT_BLOCK_INSERT_IF_NOT_EXIST` (`ins`) as parameters and the
parse outcome of the body as `parsed`.

For a dict body, the source first evaluates `"system" not in data` and then
`data["system"]`; for a dict both are decided by the same lookup, modelled
once by `jget`.  For a non-dict body the membership test (and, when it
succeeds, the string subscript `data["system"]`) raises `TypeError`, which
no `except` clause catches.  Likewise the log line at src/app.py:608
evaluates `len(original_text)`, raising `TypeError` when the `text` value
is a number, boolean or null, and insert mode evaluates
`original_text.lower()`, raising `AttributeError` unless it is a string. -/
def process_request_body (repl : Option String) (ins : Bool)
    (body : String) (parsed : Option Json) : Except Unit String :=
  match repl with
  | none => .ok body
  | some r =>
    match parsed with
    | none => .ok body
    | some data =>
      match data with
      | .obj fs =>
        match jget fs "system" with
        | none => .ok body
        | some sys =>
          match sys with
          | .arr [] => .ok body
          | .arr (first :: rest) =>
            match first with
            | .obj g =>
              match jget g "text" with
              | none => .ok body
              | some tv =>
                match pyLenJ tv with
                | .error _ => .error ()
                | .ok _ =>
                  if ins then
                    match pyLowerJ tv with
                    | .error _ => .error ()
                    | .ok lowtext =>
                      if pyContains lowtext (pyLower CLAUDE_CODE_KEYWORD) then
                        .ok (String.mk (dumpJ (Json.obj (jset fs "system"
                          (Json.arr (Json.obj (jset g "text" (Json.str r)) :: rest))))))
                      else
                        .ok (String.mk (dumpJ (Json.obj (jset fs "system"
                          (Json.arr (insertedElem r :: first :: rest))))))
                  else
                    .ok (String.mk (dumpJ (Json.obj (jset fs "system"
                      (Json.arr (Json.obj (jset g "text" (Json.str r)) :: rest))))))
            | _ => .ok body
          | _ => .ok body
      | .arr xs =>
        -- `"system" in <list>`: equality against each element; only string
        -- elements can compare equal to the string `"system"`.
        if xs.any (fun x => match x with | .str s => s = "system" | _ => false)
        then .error () else .ok body
      | .str s =>
        if pyContains s.data ("system".data) then .error () else .ok body
      | _ => .error ()

/-! ### Claims C2 and C6: body rewriter -/

lemma jget_jset_self :
    ∀ (g : List (String × Json)) (k : String) (v : Json),
      jget g k = some v → jset g k v = g := by
  intro g
  induction g with
  | nil => intro k v h; simp [jget] at h
  | cons p t ih =>
    intro k v h
    obtain ⟨k', v'⟩ := p
    by_cases hk : k' = k
    · simp only [jget, if_pos hk, Option.some.injEq] at h
      simp [jset, hk, h]
    · simp only [jget, if_neg hk] at h
      simp [jset, hk, ih _ _ h]

/-- Length of the `system` array of a JSON object, if any. -/
def sysArrLen (j : Json) : Option Nat :=
  match j with
  | .obj fs =>
    match jget fs "system" with
    | some (.arr l) => some l.length
    | _ => none
  | _ => none

/-- The C6 counterexample input `{"system": [{"type": "text", "text": "X"}]}`
whose `system[0].text` already equals the replacement `"X"`. -/
def c6In : Json :=
  Json.obj [("system", Json.arr
    [Json.obj [("type", Json.str "text"), ("text", Json.str "X")]])]

/-- What the rewriter actually produces on `c6In` in insert mode. -/
def c6Out : Json :=
  Json.obj [("system", Json.arr
    [insertedElem "X",
     Json.obj [("type", Json.str "text"), ("text", Json.str "X")]])]

/-- Counterexample to C6 as stated: with insert mode on, replacement `"X"`,
and `system[0].text` already equal to `"X"`, the rewrite is NOT a no-op on
the JSON structure — the keyword `Claude Code` does not occur in `"X"`, so a
new element is inserted at index 0 and the array length grows from 1 to 2. -/
theorem C6_idem_cex :
    process_request_body (some "X") true "B" (some c6In) =
      .ok (String.mk (dumpJ c6Out)) ∧
    sysArrLen c6In = some 1 ∧ sysArrLen c6Out = some 2 :=
  ⟨rfl, rfl, rfl⟩

/-- C6 (amended).  With insert mode on and `system[0].text` already equal to
the replacement, the rewrite is a no-op on the JSON structure (no element
inserted, array length unchanged) provided the replacement contains the
keyword `Claude Code` case-insensitively; the body is re-serialized from
the structurally unchanged JSON value. -/
theorem C6_idem_amended (r : String) (body : String)
    (fs g : List (String × Json)) (rest : List Json)
    (hsys : jget fs "system" = some (Json.arr (Json.obj g :: rest)))
    (htext : jget g "text" = some (Json.str r))
    (hkw : pyContains (pyLower r.data) (pyLower CLAUDE_CODE_KEYWORD) = true) :
    process_request_body (some r) true body (some (Json.obj fs)) =
      .ok (String.mk (dumpJ (Json.obj fs))) := by
  have h1 : jset g "text" (Json.str r) = g := jget_jset_self _ _ _ htext
  have h2 : jset fs "system" (Json.arr (Json.obj g :: rest)) = fs :=
    jget_jset_self _ _ _ hsys
  simp [process_request_body, hsys, htext, pyLenJ, pyLowerJ, hkw, h1, h2]

/-- Witness for C6 (amended) with replacement `"You are Claude Code."`. -/
theorem C6_idem_amended_witness :
    process_request_body (some "You are Claude Code.") true "B"
      (some (Json.obj [("system", Json.arr [Json.obj
        [("type", Json.str "text"),
         ("text", Json.str "You are Claude Code.")]])])) =
    .ok (String.mk (dumpJ (Json.obj [("system", Json.arr [Json.obj
        [("type", Json.str "text"),
         ("text", Json.str "You are Claude Code.")]])]))) :=
  C6_idem_amended _ _ _ _ _ rfl rfl (by decide)

/-! ## Key fingerprints (`_key_id`, src/app.py:133-134)

`_key_id(key) = hashlib.sha256(key.encode("utf-8")).hexdigest()[:16]`.
SHA-256 is implemented below over byte lists, with 32-bit words as naturals
reduced by `% 2 ^ 32`. -/

/-- Truncate to a 32-bit word. -/
def w32 (n : Nat) : Nat := n % 2 ^ 32

/-- 32-bit right rotation of a word `w < 2 ^ 32`. -/
def rotr32 (n w : Nat) : Nat := w32 ((w >>> n) ||| (w <<< (32 - n)))

/-- The SHA-256 round constants (given in decimal). -/
def K64 : List Nat :=
  [1116352408, 1899447441, 3049323471, 3921009573, 961987163, 1508970993,
   2453635748, 2870763221, 3624381080, 310598401, 607225278, 1426881987,
   1925078388, 2162078206, 2614888103, 3248222580, 3835390401, 4022224774,
   264347078, 604807628, 770255983, 1249150122, 1555081692, 1996064986,
   2554220882, 2821834349, 2952996808, 3210313671, 3336571891, 3584528711,
   113926993, 338241895, 666307205, 773529912, 1294757372, 1396182291,
   1695183700, 1986661051, 2177026350, 2456956037, 2730485921, 2820302411,
   3259730800, 3345764771, 3516065817, 3600352804, 4094571909, 275423344,
   430227734, 506948616, 659060556, 883997877, 958139571, 1322822218,
   1537002063, 1747873779, 1955562222, 2024104815, 2227730452, 2361852424,
   2428436474, 2756734187, 3204031479, 3329325298]

/-- The eight 32-bit state words of SHA-256. -/
structure H8 where
  a : Nat
  b : Nat
  c : Nat
  d : Nat
  e : Nat
  f : Nat
  g : Nat
  h : Nat

def sha256H0 : H8 :=
  ⟨1779033703, 3144134277, 1013904242, 2773480762,
   1359893119, 2600822924, 528734635, 1541459225⟩

/-- Payload padding: `0x80`, zeros to 56 mod 64, then the bit length as a
big-endian 64-bit integer. -/
def sha256Pad (msg : List Nat) : List Nat :=
  let L := msg.length
  let z := (119 - L % 64) % 64
  let n := 8 * L
  msg ++ [0x80] ++ List.replicate z 0 ++
    ([n >>> 56, n >>> 48, n >>> 40, n >>> 32,
      n >>> 24, n >>> 16, n >>> 8, n].map (· % 256))

/-- Split a byte list into 64-byte chunks. -/
def chunks64 : List Nat → List (List Nat)
  | [] => []
  | x :: t => ((x :: t).take 64) :: chunks64 ((x :: t).drop 64)
termination_by l => l.length
decreasing_by
  simp only [List.length_drop, List.length_cons]
  omega

/-- Big-endian 4-byte groups to 32-bit words. -/
def bytesToWords : List Nat → List Nat
  | b0 :: b1 :: b2 :: b3 :: rest =>
    (b0 * 2 ^ 24 + b1 * 2 ^ 16 + b2 * 2 ^ 8 + b3) :: bytesToWords rest
  | _ => []

/-- Message-schedule extension; `acc` holds the words most recent first. -/
def schedExt (acc : List Nat) : Nat → List Nat
  | 0 => acc
  | k + 1 =>
    let w2 := acc.getD 1 0
    let w7 := acc.getD 6 0
    let w15 := acc.getD 14 0
    let w16 := acc.getD 15 0
    let s0 := (rotr32 7 w15) ^^^ (rotr32 18 w15) ^^^ (w15 >>> 3)
    let s1 := (rotr32 17 w2) ^^^ (rotr32 19 w2) ^^^ (w2 >>> 10)
    schedExt (w32 (s1 + w7 + s0 + w16) :: acc) k

/-- The 64-entry message schedule from the 16 chunk words. -/
def schedule (ws : List Nat) : List Nat := (schedExt ws.reverse 48).reverse

/-- One SHA-256 compression round; `kw` pairs the round constant with the
schedule word.  `¬ e` over 32 bits is `e ^^^ 0xffffffff`. -/
def sha256Round (st : H8) (kw : Nat × Nat) : H8 :=
  let S1 := rotr32 6 st.e ^^^ rotr32 11 st.e ^^^ rotr32 25 st.e
  let ch := (st.e &&& st.f) ^^^ ((st.e ^^^ 0xffffffff) &&& st.g)
  let t1 := w32 (st.h + S1 + ch + kw.1 + kw.2)
  let S0 := rotr32 2 st.a ^^^ rotr32 13 st.a ^^^ rotr32 22 st.a
  let mj := (st.a &&& st.b) ^^^ (st.a &&& st.c) ^^^ (st.b &&& st.c)
  let t2 := w32 (S0 + mj)
  ⟨w32 (t1 + t2), st.a, st.b, st.c, w32 (st.d + t1), st.e, st.f, st.g⟩

/-- Compress one 64-byte chunk into the running state. -/
def sha256Compress (st : H8) (chunk : List Nat) : H8 :=
  let ws := schedule (bytesToWords chunk)
  let r := (K64.zip ws).foldl sha256Round st
  ⟨w32 (st.a + r.a), w32 (st.b + r.b), w32 (st.c + r.c), w32 (st.d + r.d),
   w32 (st.e + r.e), w32 (st.f + r.f), w32 (st.g + r.g), w32 (st.h + r.h)⟩

/-- Big-endian bytes of a 32-bit word. -/
def be32 (n : Nat) : List Nat := [n >>> 24, n >>> 16, n >>> 8, n].map (· % 256)

/-- SHA-256 digest bytes of a byte-list message. -/
def sha256Bytes (msg : List Nat) : List Nat :=
  let st := (chunks64 (sha256Pad msg)).foldl sha256Compress sha256H0
  ([st.a, st.b, st.c, st.d, st.e, st.f, st.g, st.h].map be32).flatten

/-- `"%02x"` rendering of one byte. -/
def byteHex (b : Nat) : List Char := [hexDigitChar (b / 16), hexDigitChar (b % 16)]

/-- `hashlib.sha256(msg).hexdigest()` as a character list. -/
def sha256Hex (msg : List Nat) : List Char := ((sha256Bytes msg).map byteHex).flatten

/-- UTF-8 encoding of one character (`str.encode("utf-8")`). -/
def utf8Char (c : Char) : List Nat :=
  let n := c.toNat
  if n < 0x80 then [n]
  else if n < 0x800 then
    [0xC0 ||| (n >>> 6), 0x80 ||| (n &&& 0x3F)]
  else if n < 0x10000 then
    [0xE0 ||| (n >>> 12), 0x80 ||| ((n >>> 6) &&& 0x3F), 0x80 ||| (n &&& 0x3F)]
  else
    [0xF0 ||| (n >>> 18), 0x80 ||| ((n >>> 12) &&& 0x3F),
     0x80 ||| ((n >>> 6) &&& 0x3F), 0x80 ||| (n &&& 0x3F)]

def utf8Encode (s : String) : List Nat := (s.data.map utf8Char).flatten

/-- `_key_id(key)` (src/app.py:133-134): the first 16 characters of the
SHA-256 hexdigest of the UTF-8 encoded key. -/
def _key_id (key : String) : String :=
  String.mk ((sha256Hex (utf8Encode key)).take 16)

/-- Model of `re.fullmatch(r"[0-9a-f]{16}", s)` (src/app.py:161). -/
def is16Hex (s : String) : Bool :=
  decide (s.data.length = 16) && s.data.all isLowHexB

/-! ### Digest shape lemmas for `_key_id` -/

lemma be32_all_lt (n : Nat) : ∀ x ∈ be32 n, x < 256 := by
  intro x hx
  rcases List.mem_map.mp hx with ⟨y, _, rfl⟩
  exact Nat.mod_lt _ (by omega)

lemma sha256Bytes_all_lt (m : List Nat) : ∀ x ∈ sha256Bytes m, x < 256 := by
  intro x hx
  simp only [sha256Bytes] at hx
  rcases List.mem_flatten.mp hx with ⟨l, hl, hxl⟩
  rcases List.mem_map.mp hl with ⟨w, _, rfl⟩
  exact be32_all_lt w x hxl

lemma sha256Bytes_length (m : List Nat) : (sha256Bytes m).length = 32 := by
  simp only [sha256Bytes]
  rw [flatten_constLen _ 4]
  · rfl
  · intro x hx
    rcases List.mem_map.mp hx with ⟨w, _, rfl⟩
    rfl

lemma sha256Hex_length (m : List Nat) : (sha256Hex m).length = 64 := by
  simp only [sha256Hex]
  rw [flatten_constLen _ 2]
  · rw [List.length_map, sha256Bytes_length]
  · intro x hx
    rcases List.mem_map.mp hx with ⟨b, _, rfl⟩
    rfl

lemma byteHex_lowHex {b : Nat} (hb : b < 256) :
    ∀ c ∈ byteHex b, isLowHexB c = true := by
  intro c hc
  simp only [byteHex] at hc
  rcases List.mem_cons.mp hc with h | h
  · subst h
    exact hexDigitChar_lowHex _ (Nat.div_lt_of_lt_mul (by omega))
  · simp only [List.mem_singleton] at h
    subst h
    exact hexDigitChar_lowHex _ (Nat.mod_lt _ (by omega))

lemma sha256Hex_lowHex (m : List Nat) : ∀ c ∈ sha256Hex m, isLowHexB c = true := by
  intro c hc
  simp only [sha256Hex] at hc
  rcases List.mem_flatten.mp hc with ⟨l, hl, hcl⟩
  rcases List.mem_map.mp hl with ⟨b, hb, rfl⟩
  exact byteHex_lowHex (sha256Bytes_all_lt m b hb) c hcl

/-- Every `_key_id` output matches `^[0-9a-f]{16}$`. -/
lemma key_id_is16Hex (k : String) : is16Hex (_key_id k) = true := by
  simp only [is16Hex, _key_id, Bool.and_eq_true, decide_eq_true_eq]
  constructor
  · show (((sha256Hex (utf8Encode k)).take 16)).length = 16
    rw [List.length_take, sha256Hex_length]
    omega
  · rw [List.all_eq_true]
    intro c hc
    exact sha256Hex_lowHex _ c (List.mem_of_mem_take hc)

/-! ## 4.C / 4.E Cooldown store and pending buffer (src/app.py:131-334)

The module-level mutable dictionaries are collected into one state record
`St`; Python dictionaries are association lists with the usual first-match
semantics (`alGet` / `alSet` / `alDel`), and `time.time()` is an explicit
natural-number argument. -/

def alGet {α : Type} (l : List (String × α)) (k : String) : Option α :=
  (l.find? (fun p => p.1 = k)).map (·.2)

/-- Python `d[k] = v`: update the first matching binding in place, else
append. -/
def alSet {α : Type} : List (String × α) → String → α → List (String × α)
  | [], k, v => [(k, v)]
  | (k', v') :: t, k, v =>
    if k' = k then (k', v) :: t else (k', v') :: alSet t k v

/-- Python `del d[k]`: remove the first matching binding. -/
def alDel {α : Type} : List (String × α) → String → List (String × α)
  | [], _ => []
  | (k', v') :: t, k => if k' = k then t else (k', v') :: alDel t k

/-- `KEY_ID_BY_KEY.get(key) or _key_id(key)` (src/app.py:219, 253, 262…):
`KEY_ID_BY_KEY` maps every configured key to its `_key_id`, and `_key_id`
never returns a falsy value (it is a 16-character string), so the
expression always equals `_key_id key`. -/
def keyIdLookup (key : String) : String := _key_id key

/-- The shared mutable module state of src/app.py: cooldown maps
(`key_cooldown_until`, `url_cooldown_until`), the pending-cooldown buffer,
the usage counter, and the nonessential-traffic latch together with its
exported environment flag. -/
structure St where
  key_cooldown_until : List (String × Nat)
  url_cooldown_until : List (String × Nat)
  pending_cooldown_keys : List (String × List String)
  key_usage_count : List (String × Nat)
  nonessential : Bool
  envFlag : Bool

def emptySt : St := ⟨[], [], [], [], false, false⟩

def KEY_COOLDOWN_HOURS : Nat := 72
def URL_COOLDOWN_HOURS : Nat := 72

/-- `add_pending_cooldown(url, key)` (src/app.py:215-222). -/
def add_pending_cooldown (st : St) (url key : String) : St :=
  let p0 := match alGet st.pending_cooldown_keys url with
    | some _ => st.pending_cooldown_keys
    | none => alSet st.pending_cooldown_keys url []
  let cur := (alGet p0 url).getD []
  let kid := keyIdLookup key
  if kid ∈ cur then { st with pending_cooldown_keys := p0 }
  else { st with pending_cooldown_keys := alSet p0 url (cur ++ [kid]) }

/-- `confirm_cooldown_for_url(url)` (src/app.py:224-237); `t` is
`time.time()` (called once per pending key, with negligible drift, modelled
as one instant). -/
def confirm_cooldown_for_url (st : St) (url : String) (t : Nat) : St :=
  match alGet st.pending_cooldown_keys url with
  | none => st
  | some [] => st
  | some kids =>
    { st with
      key_cooldown_until := kids.foldl
        (fun m kid => alSet m kid (t + KEY_COOLDOWN_HOURS * 3600))
        st.key_cooldown_until,
      pending_cooldown_keys := alSet st.pending_cooldown_keys url [] }

/-- `clear_pending_cooldown(url)` (src/app.py:239-245). -/
def clear_pending_cooldown (st : St) (url : String) : St :=
  match alGet st.pending_cooldown_keys url with
  | none => st
  | some _ => { st with pending_cooldown_keys := alSet st.pending_cooldown_keys url [] }

/-- `set_key_cooldown(key)` (src/app.py:247-257). -/
def set_key_cooldown (st : St) (key : String) (t : Nat) : St :=
  { st with key_cooldown_until := alSet st.key_cooldown_until (keyIdLookup key) (t + KEY_COOLDOWN_HOURS * 3600) }

/-- `is_key_in_cooldown(key)` (src/app.py:259-270): returns the verdict and
the (possibly pruned) state — an expired record is removed on access. -/
def is_key_in_cooldown (st : St) (key : String) (t : Nat) : Bool × St :=
  let kid := keyIdLookup key
  match alGet st.key_cooldown_until kid with
  | none => (false, st)
  | some u =>
    if t ≥ u then
      (false, { st with key_cooldown_until := alDel st.key_cooldown_until kid })
    else (true, st)

/-- `set_url_cooldown(url)` (src/app.py:281-287). -/
def set_url_cooldown (st : St) (url : String) (t : Nat) : St :=
  { st with url_cooldown_until := alSet st.url_cooldown_until url (t + URL_COOLDOWN_HOURS * 3600) }

/-- `is_url_in_cooldown(url)` (src/app.py:289-298). -/
def is_url_in_cooldown (st : St) (url : String) (t : Nat) : Bool × St :=
  match alGet st.url_cooldown_until url with
  | none => (false, st)
  | some u =>
    if t ≥ u then
      (false, { st with url_cooldown_until := alDel st.url_cooldown_until url })
    else (true, st)

/-- `increment_key_usage(key)` (src/app.py:329-334). -/
def increment_key_usage (st : St) (key : String) : St :=
  match alGet st.key_usage_count key with
  | some n => { st with key_usage_count := alSet st.key_usage_count key (n + 1) }
  | none => { st with key_usage_count := alSet st.key_usage_count key 1 }

/-- The list comprehension of `get_available_keys` (src/app.py:272-274),
threading the pruning side effects of `is_key_in_cooldown`. -/
def availFold : List String → St → Nat → List String × St
  | [], st, _ => ([], st)
  | k :: ks, st, t =>
    let r := is_key_in_cooldown st k t
    let rest := availFold ks r.2 t
    (if r.1 then rest.1 else k :: rest.1, rest.2)

def get_available_keys (cands : List String) (st : St) (t : Nat) :
    List String × St :=
  availFold cands st t

/-- Stable insertion: the element goes after every element with a
less-or-equal sort key, modelling the placement of Python's stable
`sorted(key=f)`. -/
def pyInsert {α : Type} (f : α → Nat) (x : α) : List α → List α
  | [] => [x]
  | y :: t => if f y ≤ f x then y :: pyInsert f x t else x :: y :: t

/-- Python `sorted(l, key=f)`: a stable sort by `f`. -/
def pySortedBy {α : Type} (f : α → Nat) (l : List α) : List α :=
  l.foldl (fun acc x => pyInsert f x acc) []

/-- `get_keys_sorted_by_usage()` (src/app.py:321-327). -/
def get_keys_sorted_by_usage (cands : List String) (st : St) (t : Nat) :
    List String × St :=
  let r := get_available_keys cands st t
  if r.1.isEmpty then
    (pySortedBy (fun k => (alGet r.2.key_cooldown_until (keyIdLookup k)).getD 0) cands,
     r.2)
  else
    (pySortedBy (fun k => (alGet r.2.key_usage_count k).getD 0) r.1, r.2)

/-! ### Persistence (src/app.py:143-193) -/

def COOLDOWN_SCHEMA_VERSION : Nat := 2

/-- The JSON document written by `save_cooldowns` (src/app.py:181-193). -/
structure CooldownFile where
  schema_version : Nat
  keys : List (String × Nat)
  urls : List (String × Nat)

def save_cooldowns (st : St) : CooldownFile :=
  ⟨COOLDOWN_SCHEMA_VERSION, st.key_cooldown_until, st.url_cooldown_until⟩

/-- A parsed `cooldown_state.json` as read by `load_cooldowns`:
`keysDict = none` models `data.get("keys", {})` not being a dict, and
`schema_version` already carries the default 1 of
`data.get("schema_version", 1)`. -/
structure RawFile where
  keysDict : Option (List (String × Nat))
  urls : List (String × Nat)
  schema_version : Nat

/-- The normalization loop of `load_cooldowns` (src/app.py:156-168): keep
16-hex KeyIds when the schema is ≥ 2, translate known plaintext keys
(members of `KEY_ID_BY_KEY`, i.e. configured candidates) to their KeyIds,
drop everything else. -/
def normalizeKeys (cands : List String) (sv : Nat) (raw : List (String × Nat)) :
    List (String × Nat) :=
  raw.foldl
    (fun m kv =>
      if 2 ≤ sv ∧ is16Hex kv.1 = true then alSet m kv.1 kv.2
      else if kv.1 ∈ cands then alSet m (_key_id kv.1) kv.2
      else m)
    []

/-- `load_cooldowns()` (src/app.py:145-179); `raw = none` models a missing
file (or a parse failure), leaving the maps empty. -/
def load_cooldowns (cands : List String) (raw : Option RawFile) (t : Nat) : St :=
  match raw with
  | none => emptySt
  | some f =>
    let kc := match f.keysDict with
      | some rk => (normalizeKeys cands f.schema_version rk).filter (fun p => t < p.2)
      | none => []
    { emptySt with
      key_cooldown_until := kc,
      url_cooldown_until := f.urls.filter (fun p => t < p.2) }

/-! ### Association-list lemmas -/

lemma alGet_alSet_self {α : Type} (m : List (String × α)) (k : String) (v : α) :
    alGet (alSet m k v) k = some v := by
  induction m with
  | nil => simp [alSet, alGet, List.find?]
  | cons p t ih =>
    obtain ⟨k', v'⟩ := p
    by_cases h : k' = k
    · simp [alSet, alGet, List.find?, h]
    · simp only [alSet, if_neg h]
      simpa [alGet, List.find?, h] using ih

lemma alGet_alSet_ne {α : Type} (m : List (String × α)) (k k' : String) (v : α)
    (h : k' ≠ k) : alGet (alSet m k' v) k = alGet m k := by
  induction m with
  | nil => simp [alSet, alGet, List.find?, h]
  | cons p t ih =>
    obtain ⟨k'', v''⟩ := p
    by_cases h2 : k'' = k'
    · subst h2
      simp [alSet, alGet, List.find?, h]
    · simp only [alSet, if_neg h2]
      by_cases h3 : k'' = k
      · simp [alGet, List.find?, h3]
      · simpa [alGet, List.find?, h3] using ih

lemma alGet_alDel_nodup {α : Type} (m : List (String × α)) (k : String)
    (hnd : (m.map Prod.fst).Nodup) : alGet (alDel m k) k = none := by
  induction m with
  | nil => simp [alDel, alGet, List.find?]
  | cons p t ih =>
    obtain ⟨k', v'⟩ := p
    simp only [List.map_cons, List.nodup_cons] at hnd
    by_cases h : k' = k
    · subst h
      simp only [alDel, if_pos rfl]
      -- k' no longer occurs in t
      simp only [alGet]
      rw [List.find?_eq_none.mpr]
      · rfl
      · intro p hp hpk
        simp only [decide_eq_true_eq] at hpk
        exact hnd.1 (by simpa [hpk] using List.mem_map_of_mem Prod.fst hp)
    · simpa [alDel, if_neg h, alGet, List.find?, h] using ih hnd.2

/-- C9.  A cooldown record whose expiry is ≤ the current time is treated as
absent and removed on access: `is_url_in_cooldown` / `is_key_in_cooldown`
return false and delete the entry (deletion verified against a
duplicate-free map, which is what Python dictionaries guarantee). -/
theorem C9_expired_removed (st : St) (u k : String) (t e e' : Nat) :
    (alGet st.url_cooldown_until u = some e → e ≤ t →
      is_url_in_cooldown st u t =
        (false, { st with url_cooldown_until := alDel st.url_cooldown_until u }) ∧
      ((st.url_cooldown_until.map Prod.fst).Nodup →
        alGet (alDel st.url_cooldown_until u) u = none)) ∧
    (alGet st.key_cooldown_until (keyIdLookup k) = some e' → e' ≤ t →
      is_key_in_cooldown st k t =
        (false, { st with key_cooldown_until := alDel st.key_cooldown_until (keyIdLookup k) }) ∧
      ((st.key_cooldown_until.map Prod.fst).Nodup →
        alGet (alDel st.key_cooldown_until (keyIdLookup k)) (keyIdLookup k) = none)) := by
  constructor
  · intro h he
    refine ⟨?_, fun hnd => alGet_alDel_nodup _ _ hnd⟩
    simp [is_url_in_cooldown, h, Nat.le_of_lt, he]
  · intro h he
    refine ⟨?_, fun hnd => alGet_alDel_nodup _ _ hnd⟩
    simp [is_key_in_cooldown, h, he]

/-- The C9 witness state: a URL record expired at 5 and a key record
expired at 7. -/
def c9St : St := ⟨[(keyIdLookup "k", 7)], [("u", 5)], [], [], false, false⟩

/-- Witness for C9, queried at time 10. -/
theorem C9_expired_removed_witness :
    is_url_in_cooldown c9St "u" 10 =
      (false, { c9St with url_cooldown_until := [] }) ∧
    (is_key_in_cooldown c9St "k" 10).1 = false := by
  have h := C9_expired_removed c9St "u" "k" 10 5 7
  have hu := h.1 (by simp [c9St, alGet, List.find?]) (by omega)
  have hk := h.2 (by simp [c9St, alGet, List.find?]) (by omega)
  constructor
  · rw [hu.1]
    simp [c9St, alDel]
  · rw [hk.1]

/-! ### Claim C4: pending buffer, confirm and clear -/

lemma add_pending_keyCool (st : St) (u k : String) :
    (add_pending_cooldown st u k).key_cooldown_until = st.key_cooldown_until := by
  simp only [add_pending_cooldown]
  cases alGet st.pending_cooldown_keys u <;> dsimp <;> split <;> rfl

lemma add_pending_mem (st : St) (u k : String) :
    ∃ l, alGet (add_pending_cooldown st u k).pending_cooldown_keys u = some l ∧
      keyIdLookup k ∈ l := by
  simp only [add_pending_cooldown]
  cases h : alGet st.pending_cooldown_keys u with
  | none =>
    have h0 : alGet (alSet st.pending_cooldown_keys u []) u = some [] :=
      alGet_alSet_self _ _ _
    dsimp
    rw [h0]
    simp only [Option.getD_some, List.not_mem_nil, if_false]
    exact ⟨[keyIdLookup k], by
      constructor
      · exact alGet_alSet_self _ _ _
      · simp⟩
  | some cur =>
    dsimp
    rw [h]
    simp only [Option.getD_some]
    by_cases hk : keyIdLookup k ∈ cur
    · simp only [if_pos hk]
      exact ⟨cur, h, hk⟩
    · simp only [if_neg hk]
      exact ⟨cur ++ [keyIdLookup k], alGet_alSet_self _ _ _, by simp⟩

lemma foldl_alSet_mem {α : Type} (kids : List String) (v : α) :
    ∀ (m : List (String × α)) (x : String),
      (x ∈ kids ∨ alGet m x = some v) →
      alGet (kids.foldl (fun m kid => alSet m kid v) m) x = some v := by
  induction kids with
  | nil =>
    intro m x h
    rcases h with h | h
    · simp at h
    · simpa using h
  | cons kd rest ih =>
    intro m x h
    simp only [List.foldl_cons]
    apply ih
    by_cases hx : kd = x
    · subst hx
      exact Or.inr (alGet_alSet_self _ _ _)
    · rcases h with h | h
      · rcases List.mem_cons.mp h with h2 | h2
        · exact absurd h2.symm hx
        · exact Or.inl h2
      · exact Or.inr ((alGet_alSet_ne _ _ _ _ hx).trans h)

/-- C4.  After `add_pending(u, k)` then `confirm(u)` at time `t`: a real
72-hour cooldown is recorded for the key (and for every KeyId pending on
`u`), `is_key_in_cooldown` answers true while the cooldown lasts, and the
pending list of `u` is cleared.  After `add_pending(u, k)` then `clear(u)`:
no cooldown is recorded and `is_key_in_cooldown` answers false (assuming
`k` was not already in cooldown). -/
theorem C4_confirm_clear (st : St) (u k : String) (t t' : Nat) :
    (∀ kid l,
      alGet (add_pending_cooldown st u k).pending_cooldown_keys u = some l →
      kid ∈ l →
      alGet (confirm_cooldown_for_url (add_pending_cooldown st u k) u t).key_cooldown_until kid
        = some (t + KEY_COOLDOWN_HOURS * 3600)) ∧
    (alGet (confirm_cooldown_for_url (add_pending_cooldown st u k) u t).key_cooldown_until
        (keyIdLookup k) = some (t + KEY_COOLDOWN_HOURS * 3600)) ∧
    (t' < t + KEY_COOLDOWN_HOURS * 3600 →
      (is_key_in_cooldown (confirm_cooldown_for_url (add_pending_cooldown st u k) u t) k t').1
        = true) ∧
    (alGet (confirm_cooldown_for_url (add_pending_cooldown st u k) u t).pending_cooldown_keys u
        = some []) ∧
    ((clear_pending_cooldown (add_pending_cooldown st u k) u).key_cooldown_until
        = st.key_cooldown_until) ∧
    (alGet st.key_cooldown_until (keyIdLookup k) = none →
      (is_key_in_cooldown (clear_pending_cooldown (add_pending_cooldown st u k) u) k t').1
        = false) := by
  obtain ⟨l, hl, hmem⟩ := add_pending_mem st u k
  have hlne : l ≠ [] := by
    intro h
    subst h
    simp at hmem
  have hconfirm :
      confirm_cooldown_for_url (add_pending_cooldown st u k) u t =
      { add_pending_cooldown st u k with
        key_cooldown_until := l.foldl
          (fun m kid => alSet m kid (t + KEY_COOLDOWN_HOURS * 3600))
          (add_pending_cooldown st u k).key_cooldown_until,
        pending_cooldown_keys :=
          alSet (add_pending_cooldown st u k).pending_cooldown_keys u [] } := by
    cases l with
    | nil => exact absurd rfl hlne
    | cons a as => simp [confirm_cooldown_for_url, hl]
  have hset : ∀ kid ∈ l,
      alGet (confirm_cooldown_for_url (add_pending_cooldown st u k) u t).key_cooldown_until kid
        = some (t + KEY_COOLDOWN_HOURS * 3600) := by
    intro kid hkid
    rw [hconfirm]
    exact foldl_alSet_mem _ _ _ _ (Or.inl hkid)
  refine ⟨?_, ?_, ?_, ?_, ?_, ?_⟩
  · intro kid l' hl' hmem'
    rw [hl] at hl'
    cases hl'
    exact hset kid hmem'
  · exact hset _ hmem
  · intro ht
    simp only [is_key_in_cooldown, hset _ hmem]
    rw [if_neg (by omega : ¬ t' ≥ t + KEY_COOLDOWN_HOURS * 3600)]
  · rw [hconfirm]
    exact alGet_alSet_self _ _ _
  · simp only [clear_pending_cooldown, hl]
    exact add_pending_keyCool st u k
  · intro hnone
    have hclear : (clear_pending_cooldown (add_pending_cooldown st u k) u).key_cooldown_until
        = st.key_cooldown_until := by
      simp only [clear_pending_cooldown, hl]
      exact add_pending_keyCool st u k
    simp only [is_key_in_cooldown, hclear, hnone]

/-- Witness for C4 from the empty state at `u = "u"`, `k = "k"`, confirm at
time 0, queries at time 100. -/
theorem C4_confirm_clear_witness :
    (is_key_in_cooldown (confirm_cooldown_for_url (add_pending_cooldown emptySt "u" "k") "u" 0)
      "k" 100).1 = true ∧
    (is_key_in_cooldown (clear_pending_cooldown (add_pending_cooldown emptySt "u" "k") "u")
      "k" 100).1 = false := by
  have h := C4_confirm_clear emptySt "u" "k" 0 100
  exact ⟨h.2.2.1 (by decide), h.2.2.2.2.2 rfl⟩

/-! ### Claim C8: sorted available keys -/

lemma alDel_sublist {α : Type} (m : List (String × α)) (k : String) :
    List.Sublist (alDel m k) m := by
  induction m with
  | nil => simp [alDel]
  | cons p t ih =>
    obtain ⟨k', v'⟩ := p
    by_cases h : k' = k
    · rw [alDel, if_pos h]
      exact List.sublist_cons_self _ _
    · rw [alDel, if_neg h]
      exact ih.cons₂ _

lemma alGet_alDel_ne {α : Type} (m : List (String × α)) (k k' : String)
    (h : k' ≠ k) : alGet (alDel m k') k = alGet m k := by
  induction m with
  | nil => simp [alDel]
  | cons p t ih =>
    obtain ⟨k'', v''⟩ := p
    rw [alDel]
    by_cases h2 : k'' = k'
    · rw [if_pos h2]
      subst h2
      simp [alGet, List.find?, h]
    · rw [if_neg h2]
      by_cases h3 : k'' = k
      · simp [alGet, List.find?, h3]
      · simpa [alGet, List.find?, h3] using ih

/-- The pure verdict of `is_key_in_cooldown` at time `t`. -/
def isCoolPure (st : St) (k : String) (t : Nat) : Bool :=
  match alGet st.key_cooldown_until (keyIdLookup k) with
  | none => false
  | some u => decide (t < u)

lemma isKey_fst (st : St) (k : String) (t : Nat) :
    (is_key_in_cooldown st k t).1 = isCoolPure st k t := by
  simp only [is_key_in_cooldown, isCoolPure]
  cases h : alGet st.key_cooldown_until (keyIdLookup k) with
  | none => rfl
  | some u =>
    by_cases ht : t ≥ u
    · simp [if_pos ht]
      omega
    · simp [if_neg ht]
      omega

lemma isKey_snd_usage (st : St) (k : String) (t : Nat) :
    (is_key_in_cooldown st k t).2.key_usage_count = st.key_usage_count := by
  simp only [is_key_in_cooldown]
  cases alGet st.key_cooldown_until (keyIdLookup k) <;> dsimp <;> split <;> rfl

lemma isKey_snd_nodup (st : St) (k : String) (t : Nat)
    (hnd : (st.key_cooldown_until.map Prod.fst).Nodup) :
    (((is_key_in_cooldown st k t).2).key_cooldown_until.map Prod.fst).Nodup := by
  simp only [is_key_in_cooldown]
  cases alGet st.key_cooldown_until (keyIdLookup k) with
  | none => exact hnd
  | some u =>
    dsimp
    split
    · exact hnd.sublist ((alDel_sublist _ _).map _)
    · exact hnd

lemma isKey_snd_pure (st : St) (k : String) (t : Nat)
    (hnd : (st.key_cooldown_until.map Prod.fst).Nodup) :
    ∀ x, isCoolPure ((is_key_in_cooldown st k t).2) x t = isCoolPure st x t := by
  intro x
  simp only [is_key_in_cooldown]
  cases h : alGet st.key_cooldown_until (keyIdLookup k) with
  | none => rfl
  | some u =>
    dsimp
    by_cases ht : t ≥ u
    · rw [if_pos ht]
      simp only [isCoolPure]
      by_cases hx : keyIdLookup x = keyIdLookup k
      · rw [hx, alGet_alDel_nodup _ _ hnd, h]
        simp
        omega
      · rw [alGet_alDel_ne _ _ _ (fun he => hx (he.symm)) ]
    · rw [if_neg ht]

lemma isKey_true_snd (st : St) (k : String) (t : Nat)
    (h : isCoolPure st k t = true) : (is_key_in_cooldown st k t).2 = st := by
  simp only [is_key_in_cooldown]
  simp only [isCoolPure] at h
  cases hg : alGet st.key_cooldown_until (keyIdLookup k) with
  | none => rfl
  | some u =>
    rw [hg] at h
    simp only [decide_eq_true_eq] at h
    dsimp
    rw [if_neg (by omega)]

lemma availFold_spec (ks : List String) :
    ∀ (st : St), (st.key_cooldown_until.map Prod.fst).Nodup →
    ∀ (t : Nat),
    (availFold ks st t).1 = ks.filter (fun k => ! isCoolPure st k t) ∧
    (availFold ks st t).2.key_usage_count = st.key_usage_count ∧
    (((availFold ks st t).2.key_cooldown_until.map Prod.fst).Nodup) ∧
    (∀ x, isCoolPure ((availFold ks st t).2) x t = isCoolPure st x t) ∧
    ((∀ k ∈ ks, isCoolPure st k t = true) → (availFold ks st t).2 = st) := by
  induction ks with
  | nil => intro st hnd t; exact ⟨rfl, rfl, hnd, fun _ => rfl, fun _ => rfl⟩
  | cons k ks ih =>
    intro st hnd t
    have h1 := isKey_fst st k t
    have hu := isKey_snd_usage st k t
    have hn := isKey_snd_nodup st k t hnd
    have hp := isKey_snd_pure st k t hnd
    have hrec := ih (is_key_in_cooldown st k t).2 hn t
    simp only [availFold]
    refine ⟨?_, ?_, ?_, ?_, ?_⟩
    · rw [h1, hrec.1, List.filter_cons]
      have : (ks.filter fun k' => ! isCoolPure (is_key_in_cooldown st k t).2 k' t)
          = ks.filter (fun k' => ! isCoolPure st k' t) :=
        List.filter_congr (fun x _ => by rw [hp x])
      rw [this]
      cases hc : isCoolPure st k t <;> simp
    · rw [hrec.2.1, hu]
    · exact hrec.2.2.1
    · intro x
      rw [hrec.2.2.2.1 x, hp x]
    · intro hall
      have hk := hall k (by simp)
      have hst : (is_key_in_cooldown st k t).2 = st := isKey_true_snd st k t hk
      rw [hrec.2.2.2.2 (fun k' hk' => by rw [hp k']; exact hall k' (by simp [hk']))]
      exact hst

/-- The output order of a stable sort by key `f` over a list whose original
order satisfies `S`: strictly smaller key, or equal keys in original order. -/
def Rrel {α : Type} (f : α → Nat) (S : α → α → Prop) (a b : α) : Prop :=
  f a < f b ∨ (f a = f b ∧ S a b)

lemma pyInsert_perm {α : Type} (f : α → Nat) (x : α) (l : List α) :
    (pyInsert f x l).Perm (x :: l) := by
  induction l with
  | nil => simp [pyInsert]
  | cons y t ih =>
    by_cases h : f y ≤ f x
    · have hstep : pyInsert f x (y :: t) = y :: pyInsert f x t := by
        simp only [pyInsert, if_pos h]
      rw [hstep]
      exact (ih.cons y).trans (List.Perm.swap x y t)
    · have hstep : pyInsert f x (y :: t) = x :: y :: t := by
        simp only [pyInsert, if_neg h]
      rw [hstep]

lemma mem_pyInsert {α : Type} (f : α → Nat) (x y : α) (l : List α) :
    y ∈ pyInsert f x l ↔ y = x ∨ y ∈ l := by
  rw [(pyInsert_perm f x l).mem_iff]
  simp

lemma pyInsert_pairwise {α : Type} (f : α → Nat) (S : α → α → Prop) (x : α) :
    ∀ (l : List α), l.Pairwise (Rrel f S) → (∀ y ∈ l, S y x) →
      (pyInsert f x l).Pairwise (Rrel f S) := by
  intro l
  induction l with
  | nil => intro _ _; simp [pyInsert]
  | cons y t ih =>
    intro hl hx
    rcases List.pairwise_cons.mp hl with ⟨hy, ht⟩
    by_cases h : f y ≤ f x
    · rw [pyInsert, if_pos h]
      refine List.pairwise_cons.mpr ⟨?_, ih ht (fun z hz => hx z (by simp [hz]))⟩
      intro z hz
      rcases (mem_pyInsert f x z t).mp hz with rfl | hz
      · rcases Nat.lt_or_ge (f y) (f z) with hlt | hge
        · exact Or.inl hlt
        · exact Or.inr ⟨by omega, hx y (by simp)⟩
      · exact hy z hz
    · rw [pyInsert, if_neg h]
      refine List.pairwise_cons.mpr ⟨?_, hl⟩
      intro z hz
      rcases List.mem_cons.mp hz with rfl | hz
      · exact Or.inl (by omega)
      · rcases hy z hz with hlt | ⟨heq, _⟩
        · exact Or.inl (by omega)
        · exact Or.inl (by omega)

lemma foldl_pyInsert_perm {α : Type} (f : α → Nat) :
    ∀ (l acc : List α),
      (l.foldl (fun a x => pyInsert f x a) acc).Perm (acc ++ l) := by
  intro l
  induction l with
  | nil => intro acc; simp
  | cons x t ih =>
    intro acc
    simp only [List.foldl_cons]
    refine (ih (pyInsert f x acc)).trans ?_
    refine ((pyInsert_perm f x acc).append_right t).trans ?_
    simpa using List.perm_middle.symm

lemma pySortedBy_perm {α : Type} (f : α → Nat) (l : List α) :
    (pySortedBy f l).Perm l := by
  simpa [pySortedBy] using foldl_pyInsert_perm f l []

lemma foldl_pyInsert_pairwise {α : Type} (f : α → Nat) (S : α → α → Prop) :
    ∀ (l acc : List α), acc.Pairwise (Rrel f S) →
      (∀ y ∈ acc, ∀ z ∈ l, S y z) → l.Pairwise S →
      (l.foldl (fun a x => pyInsert f x a) acc).Pairwise (Rrel f S) := by
  intro l
  induction l with
  | nil => intro acc ha _ _; simpa using ha
  | cons x t ih =>
    intro acc ha hcross hl
    rcases List.pairwise_cons.mp hl with ⟨hx, ht⟩
    simp only [List.foldl_cons]
    refine ih _ (pyInsert_pairwise f S x acc ha (fun y hy => hcross y hy x (by simp))) ?_ ht
    intro y hy z hz
    rcases (mem_pyInsert f x y acc).mp hy with rfl | hy
    · exact hx z hz
    · exact hcross y hy z (by simp [hz])

lemma pySortedBy_pairwise {α : Type} (f : α → Nat) (S : α → α → Prop)
    (l : List α) (hl : l.Pairwise S) :
    (pySortedBy f l).Pairwise (Rrel f S) :=
  foldl_pyInsert_pairwise f S l [] (by simp) (by simp) hl

lemma pairwise_trivial {α : Type} (l : List α) : l.Pairwise (fun _ _ => True) := by
  induction l with
  | nil => exact List.Pairwise.nil
  | cons x t ih => exact List.Pairwise.cons (fun _ _ => trivial) ih

lemma pySortedBy_sorted {α : Type} (f : α → Nat) (l : List α) :
    (pySortedBy f l).Pairwise (fun a b => f a ≤ f b) := by
  have h := pySortedBy_pairwise f (fun _ _ => True) l (pairwise_trivial l)
  exact h.imp (fun hr => by rcases hr with h | ⟨h, _⟩ <;> omega)

/-- C8.  `get_keys_sorted_by_usage` returns exactly the configured keys not
in cooldown, ordered ascending by usage count with ties broken by
configuration order (any relation `S` holding along the configuration list
is preserved on ties); when every configured key is in cooldown it instead
returns all configured keys ordered by earliest cooldown expiry first (with
the same tie-breaking).  The hypothesis is that the cooldown map has
duplicate-free keys, which Python dictionaries guarantee. -/
theorem C8_sorted_keys (cands : List String) (st : St) (t : Nat)
    (hnd : (st.key_cooldown_until.map Prod.fst).Nodup) :
    ((get_available_keys cands st t).1 =
      cands.filter (fun k => ! isCoolPure st k t)) ∧
    (cands.filter (fun k => ! isCoolPure st k t) ≠ [] →
      ((get_keys_sorted_by_usage cands st t).1.Perm
        (cands.filter (fun k => ! isCoolPure st k t)) ∧
      (get_keys_sorted_by_usage cands st t).1.Pairwise
        (fun a b => (alGet st.key_usage_count a).getD 0 ≤
                    (alGet st.key_usage_count b).getD 0) ∧
      (∀ S : String → String → Prop, cands.Pairwise S →
        (get_keys_sorted_by_usage cands st t).1.Pairwise
          (Rrel (fun k => (alGet st.key_usage_count k).getD 0) S)))) ∧
    (cands.filter (fun k => ! isCoolPure st k t) = [] →
      ((get_keys_sorted_by_usage cands st t).1.Perm cands ∧
      (get_keys_sorted_by_usage cands st t).1.Pairwise
        (fun a b => (alGet st.key_cooldown_until (keyIdLookup a)).getD 0 ≤
                    (alGet st.key_cooldown_until (keyIdLookup b)).getD 0) ∧
      (∀ S : String → String → Prop, cands.Pairwise S →
        (get_keys_sorted_by_usage cands st t).1.Pairwise
          (Rrel (fun k => (alGet st.key_cooldown_until (keyIdLookup k)).getD 0) S)))) := by
  have hspec := availFold_spec cands st hnd t
  have havail : (get_available_keys cands st t).1 =
      cands.filter (fun k => ! isCoolPure st k t) := hspec.1
  refine ⟨havail, ?_, ?_⟩
  · intro hne
    have hnemp : ((get_available_keys cands st t).1.isEmpty) = false := by
      rw [havail]
      cases hc : cands.filter (fun k => ! isCoolPure st k t) with
      | nil => exact absurd hc hne
      | cons a l => rfl
    have hres : (get_keys_sorted_by_usage cands st t).1 =
        pySortedBy (fun k => (alGet (get_available_keys cands st t).2.key_usage_count k).getD 0)
          (get_available_keys cands st t).1 := by
      simp only [get_keys_sorted_by_usage, hnemp]
      rfl
    have husage : (get_available_keys cands st t).2.key_usage_count =
        st.key_usage_count := hspec.2.1
    rw [hres, husage, havail]
    refine ⟨pySortedBy_perm _ _, pySortedBy_sorted _ _, ?_⟩
    intro S hS
    exact pySortedBy_pairwise _ S _ (hS.sublist (List.filter_sublist _))
  · intro heq
    have hall : ∀ k ∈ cands, isCoolPure st k t = true := by
      intro k hk
      have := List.filter_eq_nil_iff.mp heq k hk
      simpa using this
    have hstid : (get_available_keys cands st t).2 = st := hspec.2.2.2.2 hall
    have hemp : ((get_available_keys cands st t).1.isEmpty) = true := by
      rw [havail, heq]
      rfl
    have hres : (get_keys_sorted_by_usage cands st t).1 =
        pySortedBy (fun k =>
          (alGet (get_available_keys cands st t).2.key_cooldown_until (keyIdLookup k)).getD 0)
          cands := by
      simp only [get_keys_sorted_by_usage, hemp]
      rfl
    rw [hres, hstid]
    refine ⟨pySortedBy_perm _ _, pySortedBy_sorted _ _, ?_⟩
    intro S hS
    exact pySortedBy_pairwise _ S _ hS

/-- The C8 witness state: usage counts a ↦ 2, b ↦ 1, no cooldowns. -/
def c8St : St := ⟨[], [], [], [("a", 2), ("b", 1)], false, false⟩

/-- Witness for C8 with three configured keys and no cooldowns. -/
theorem C8_sorted_keys_witness :
    (get_available_keys ["a", "b", "c"] c8St 0).1 =
      (["a", "b", "c"].filter (fun k => ! isCoolPure c8St k 0)) ∧
    (get_keys_sorted_by_usage ["a", "b", "c"] c8St 0).1.Perm
      (["a", "b", "c"].filter (fun k => ! isCoolPure c8St k 0)) ∧
    (get_keys_sorted_by_usage ["a", "b", "c"] c8St 0).1.Pairwise
      (fun a b => (alGet c8St.key_usage_count a).getD 0 ≤
                  (alGet c8St.key_usage_count b).getD 0) := by
  have h := C8_sorted_keys ["a", "b", "c"] c8St 0 (by simp [c8St])
  have h2 := h.2.1 (by decide)
  exact ⟨h.1, h2.1, h2.2.1⟩

/-! ### Claim C7: only KeyIds are persisted -/

lemma alGet_mem {α : Type} (m : List (String × α)) (k : String) (v : α)
    (h : alGet m k = some v) : (k, v) ∈ m := by
  induction m with
  | nil => simp [alGet] at h
  | cons p t ih =>
    obtain ⟨k', v'⟩ := p
    by_cases hk : k' = k
    · subst hk
      rw [alGet, List.find?_cons_of_pos _ (by simp)] at h
      simp only [Option.map_some', Option.some.injEq] at h
      subst h
      exact List.mem_cons_self _ _
    · rw [alGet, List.find?_cons_of_neg _ (by simp [hk])] at h
      exact List.mem_cons_of_mem _ (ih h)

lemma mem_alSet {α : Type} (m : List (String × α)) (k : String) (v : α) :
    ∀ p ∈ alSet m k v, p ∈ m ∨ p = (k, v) := by
  induction m with
  | nil => intro p hp; simp [alSet] at hp; simp [hp]
  | cons q t ih =>
    obtain ⟨k', v'⟩ := q
    intro p hp
    by_cases hk : k' = k
    · subst hk
      rw [alSet, if_pos rfl] at hp
      rcases List.mem_cons.mp hp with rfl | hp
      · exact Or.inr rfl
      · exact Or.inl (List.mem_cons_of_mem _ hp)
    · rw [alSet, if_neg hk] at hp
      rcases List.mem_cons.mp hp with rfl | hp
      · exact Or.inl (List.mem_cons_self _ _)
      · rcases ih p hp with h | h
        · exact Or.inl (List.mem_cons_of_mem _ h)
        · exact Or.inr h

/-- The strengthened persistence invariant: every key of the cooldown map
and every KeyId buffered in the pending lists is 16-hex. -/
def Inv16 (st : St) : Prop :=
  (∀ p ∈ st.key_cooldown_until, is16Hex p.1 = true) ∧
  (∀ q ∈ st.pending_cooldown_keys, ∀ kid ∈ q.2, is16Hex kid = true)

/-- States reachable by the cooldown store: an initial `load_cooldowns` (of
an arbitrary file, or of a missing one) followed by any sequence of the
store's operations as invoked by the proxy. -/
inductive ReachSt (cands : List String) : St → Prop
  | load (raw : Option RawFile) (t : Nat) :
      ReachSt cands (load_cooldowns cands raw t)
  | addPending {st : St} (u k : String) :
      ReachSt cands st → ReachSt cands (add_pending_cooldown st u k)
  | confirm {st : St} (u : String) (t : Nat) :
      ReachSt cands st → ReachSt cands (confirm_cooldown_for_url st u t)
  | clearP {st : St} (u : String) :
      ReachSt cands st → ReachSt cands (clear_pending_cooldown st u)
  | setKey {st : St} (k : String) (t : Nat) :
      ReachSt cands st → ReachSt cands (set_key_cooldown st k t)
  | setUrl {st : St} (u : String) (t : Nat) :
      ReachSt cands st → ReachSt cands (set_url_cooldown st u t)
  | isKey {st : St} (k : String) (t : Nat) :
      ReachSt cands st → ReachSt cands (is_key_in_cooldown st k t).2
  | isUrl {st : St} (u : String) (t : Nat) :
      ReachSt cands st → ReachSt cands (is_url_in_cooldown st u t).2
  | incUse {st : St} (k : String) :
      ReachSt cands st → ReachSt cands (increment_key_usage st k)
  | setLatch {st : St} :
      ReachSt cands st → ReachSt cands { st with nonessential := true, envFlag := true }

lemma normalizeKeys_16hex (cands : List String) (sv : Nat) (raw : List (String × Nat)) :
    ∀ p ∈ normalizeKeys cands sv raw, is16Hex p.1 = true := by
  rw [normalizeKeys]
  have aux : ∀ (l : List (String × Nat)) (m : List (String × Nat)),
      (∀ p ∈ m, is16Hex p.1 = true) →
      ∀ p ∈ l.foldl (fun m kv =>
        if 2 ≤ sv ∧ is16Hex kv.1 = true then alSet m kv.1 kv.2
        else if kv.1 ∈ cands then alSet m (_key_id kv.1) kv.2
        else m) m, is16Hex p.1 = true := by
    intro l
    induction l with
    | nil => intro m hm; simpa using hm
    | cons kv t ih =>
      intro m hm
      simp only [List.foldl_cons]
      apply ih
      intro p hp
      split at hp
      · rcases mem_alSet _ _ _ p hp with h | h
        · exact hm p h
        · rw [h]
          exact (by assumption : 2 ≤ sv ∧ is16Hex kv.1 = true).2
      · split at hp
        · rcases mem_alSet _ _ _ p hp with h | h
          · exact hm p h
          · rw [h]
            exact key_id_is16Hex kv.1
        · exact hm p hp
  exact aux raw [] (by simp)

lemma inv16_load (cands : List String) (raw : Option RawFile) (t : Nat) :
    Inv16 (load_cooldowns cands raw t) := by
  cases raw with
  | none => exact ⟨by simp [load_cooldowns, emptySt], by simp [load_cooldowns, emptySt]⟩
  | some f =>
    constructor
    · intro p hp
      simp only [load_cooldowns] at hp
      cases hkd : f.keysDict with
      | none => rw [hkd] at hp; simp at hp
      | some rk =>
        rw [hkd] at hp
        exact normalizeKeys_16hex cands f.schema_version rk p (List.mem_of_mem_filter hp)
    · intro q hq
      simp [load_cooldowns, emptySt] at hq

lemma inv16_preserved_pending_set (st : St) (u : String) (l : List String)
    (hinv : Inv16 st) (hl : ∀ kid ∈ l, is16Hex kid = true) :
    ∀ q ∈ alSet st.pending_cooldown_keys u l, ∀ kid ∈ q.2, is16Hex kid = true := by
  intro q hq
  rcases mem_alSet _ _ _ q hq with h | h
  · exact hinv.2 q h
  · rw [h]
    exact hl

lemma inv16_addPending (st : St) (u k : String) (hinv : Inv16 st) :
    Inv16 (add_pending_cooldown st u k) := by
  have hp0 : ∀ q ∈ alSet st.pending_cooldown_keys u ([] : List String),
      ∀ kid ∈ q.2, is16Hex kid = true := by
    intro q hq
    rcases mem_alSet _ _ _ q hq with h2 | h2
    · exact hinv.2 q h2
    · rw [h2]; simp
  simp only [add_pending_cooldown]
  cases h : alGet st.pending_cooldown_keys u with
  | none =>
    rw [alGet_alSet_self]
    simp only [Option.getD_some, List.not_mem_nil, if_false]
    refine ⟨hinv.1, ?_⟩
    intro q hq
    rcases mem_alSet _ _ _ q hq with h2 | h2
    · exact hp0 q h2
    · rw [h2]
      intro kid hkid
      simp only [List.nil_append, List.mem_singleton] at hkid
      rw [hkid]
      exact key_id_is16Hex k
  | some cur =>
    rw [h]
    simp only [Option.getD_some]
    have hcur : ∀ kid ∈ cur, is16Hex kid = true :=
      hinv.2 (u, cur) (alGet_mem _ _ _ h)
    split
    · exact ⟨hinv.1, hinv.2⟩
    · refine ⟨hinv.1, ?_⟩
      intro q hq
      rcases mem_alSet _ _ _ q hq with h2 | h2
      · exact hinv.2 q h2
      · rw [h2]
        intro kid hkid
        rcases List.mem_append.mp hkid with h3 | h3
        · exact hcur kid h3
        · simp only [List.mem_singleton] at h3
          rw [h3]
          exact key_id_is16Hex k

lemma inv16_confirm (st : St) (u : String) (t : Nat) (hinv : Inv16 st) :
    Inv16 (confirm_cooldown_for_url st u t) := by
  simp only [confirm_cooldown_for_url]
  cases h : alGet st.pending_cooldown_keys u with
  | none => exact hinv
  | some kids =>
    cases kids with
    | nil => exact hinv
    | cons a as =>
      have hkids : ∀ kid ∈ a :: as, is16Hex kid = true :=
        hinv.2 (u, a :: as) (alGet_mem _ _ _ h)
      constructor
      · have aux : ∀ (l : List String) (m : List (String × Nat)),
            (∀ kid ∈ l, is16Hex kid = true) →
            (∀ p ∈ m, is16Hex p.1 = true) →
            ∀ p ∈ l.foldl (fun m kid => alSet m kid (t + KEY_COOLDOWN_HOURS * 3600)) m,
              is16Hex p.1 = true := by
          intro l
          induction l with
          | nil => intro m _ hm; simpa using hm
          | cons b bs ih =>
            intro m hl hm
            simp only [List.foldl_cons]
            apply ih
            · intro kid hkid; exact hl kid (by simp [hkid])
            · intro p hp
              rcases mem_alSet _ _ _ p hp with h2 | h2
              · exact hm p h2
              · rw [h2]
                exact hl b (by simp)
        exact aux (a :: as) st.key_cooldown_until hkids hinv.1
      · intro q hq
        rcases mem_alSet _ _ _ q hq with h2 | h2
        · exact hinv.2 q h2
        · rw [h2]; simp

lemma inv16_clear (st : St) (u : String) (hinv : Inv16 st) :
    Inv16 (clear_pending_cooldown st u) := by
  simp only [clear_pending_cooldown]
  cases alGet st.pending_cooldown_keys u with
  | none => exact hinv
  | some l =>
    refine ⟨hinv.1, ?_⟩
    intro q hq
    rcases mem_alSet _ _ _ q hq with h2 | h2
    · exact hinv.2 q h2
    · rw [h2]; simp

lemma inv16_setKey (st : St) (k : String) (t : Nat) (hinv : Inv16 st) :
    Inv16 (set_key_cooldown st k t) := by
  refine ⟨?_, hinv.2⟩
  intro p hp
  rcases mem_alSet _ _ _ p hp with h | h
  · exact hinv.1 p h
  · rw [h]
    exact key_id_is16Hex k

lemma inv16_isKey (st : St) (k : String) (t : Nat) (hinv : Inv16 st) :
    Inv16 (is_key_in_cooldown st k t).2 := by
  simp only [is_key_in_cooldown]
  cases alGet st.key_cooldown_until (keyIdLookup k) with
  | none => exact hinv
  | some u =>
    dsimp
    split
    · refine ⟨?_, hinv.2⟩
      intro p hp
      exact hinv.1 p ((alDel_sublist _ _).mem hp)
    · exact hinv

lemma inv16_isUrl (st : St) (u : String) (t : Nat) (hinv : Inv16 st) :
    Inv16 (is_url_in_cooldown st u t).2 := by
  simp only [is_url_in_cooldown]
  cases alGet st.url_cooldown_until u with
  | none => exact hinv
  | some e =>
    dsimp
    split
    · exact ⟨hinv.1, hinv.2⟩
    · exact hinv

lemma inv16_incUse (st : St) (k : String) (hinv : Inv16 st) :
    Inv16 (increment_key_usage st k) := by
  simp only [increment_key_usage]
  cases alGet st.key_usage_count k with
  | none => exact ⟨hinv.1, hinv.2⟩
  | some n => exact ⟨hinv.1, hinv.2⟩

lemma reach_inv16 (cands : List String) (st : St) (h : ReachSt cands st) :
    Inv16 st := by
  induction h with
  | load raw t => exact inv16_load cands raw t
  | addPending u k _ ih => exact inv16_addPending _ u k ih
  | confirm u t _ ih => exact inv16_confirm _ u t ih
  | clearP u _ ih => exact inv16_clear _ u ih
  | setKey k t _ ih => exact inv16_setKey _ k t ih
  | setUrl u t _ ih => exact ⟨ih.1, ih.2⟩
  | isKey k t _ ih => exact inv16_isKey _ k t ih
  | isUrl u t _ ih => exact inv16_isUrl _ u t ih
  | incUse k _ ih => exact inv16_incUse _ k ih
  | setLatch _ ih => exact ⟨ih.1, ih.2⟩

/-- C7.  Every persisted cooldown file has only `^[0-9a-f]{16}$` members in
`keys` (no plaintext keys on disk), for every state the store can reach;
loading removes expired entries and keeps only 16-hex KeyIds; a
schema-version-1 file's known plaintext keys are translated to their
KeyIds, and unknown plaintext entries are dropped. -/
theorem C7_keyids_on_disk (cands : List String) :
    (∀ st, ReachSt cands st →
      ∀ p ∈ (save_cooldowns st).keys, is16Hex p.1 = true) ∧
    (∀ raw t, ∀ p ∈ (load_cooldowns cands raw t).key_cooldown_until,
      is16Hex p.1 = true ∧ t < p.2) ∧
    (∀ k v, k ∈ cands → normalizeKeys cands 1 [(k, v)] = [(_key_id k, v)]) ∧
    (∀ k v, k ∉ cands → normalizeKeys cands 1 [(k, v)] = []) := by
  refine ⟨?_, ?_, ?_, ?_⟩
  · intro st h p hp
    exact (reach_inv16 cands st h).1 p hp
  · intro raw t p hp
    refine ⟨(inv16_load cands raw t).1 p hp, ?_⟩
    cases raw with
    | none => simp [load_cooldowns, emptySt] at hp
    | some f =>
      simp only [load_cooldowns] at hp
      cases hkd : f.keysDict with
      | none => rw [hkd] at hp; simp at hp
      | some rk =>
        rw [hkd] at hp
        have := List.of_mem_filter hp
        simpa using this
  · intro k v hk
    simp [normalizeKeys, hk, alSet]
  · intro k v hk
    simp [normalizeKeys, hk]

/-- Witness for C7 with one configured key `"sk-a"`. -/
theorem C7_keyids_on_disk_witness :
    (∀ p ∈ (save_cooldowns (load_cooldowns ["sk-a"] none 0)).keys, is16Hex p.1 = true) ∧
    normalizeKeys ["sk-a"] 1 [("sk-a", 5)] = [(_key_id "sk-a", 5)] ∧
    normalizeKeys ["sk-a"] 1 [("zzz", 5)] = [] :=
  ⟨(C7_keyids_on_disk ["sk-a"]).1 _ (ReachSt.load none 0),
   (C7_keyids_on_disk ["sk-a"]).2.2.1 "sk-a" 5 (by simp),
   (C7_keyids_on_disk ["sk-a"]).2.2.2 "zzz" 5 (by simp)⟩

/-! ## 4.G / 4.H Retry context and failover engine (src/app.py:82-116, 705-1004)

The engine is modelled as the nested URL / key / attempt loops of `proxy`,
consuming a script of upstream responses (one per `http_client.send`).  A
response carries its status, decoded body text, whether the content type is
JSON, and the abstraction of `json.loads` plus the `error.message` /
`error.type` extraction (`parsed = none` when parsing or extraction fails,
which the bare `except` clauses swallow).  WAF-cookie bookkeeping and
sleeps have no effect on the modelled state and are elided; header
construction is not modelled.  Streaming back a success ends the request
(`return`), as do 4xx passthrough and the content-error wrap. -/

structure ErrInfo where
  msg : List Char
  etype : String

structure UpResp where
  status : Nat
  text : List Char
  ctJson : Bool
  parsed : Option ErrInfo

inductive ScriptItem where
  | resp (r : UpResp)
  | exn

/-- `RetryContext` (src/app.py:82-116) plus the shared module state. -/
structure EngSt where
  sys : St
  full_context_attempts : Int
  probe_attempts : Int
  psbf : Bool
  lastUrl : Option String
  lastKey : Option String

def MAX_RETRY_ATTEMPTS : Nat := 2

/-- `RetryContext.should_use_probe` (src/app.py:98-100). -/
def should_use_probe (e : EngSt) : Bool := decide (2 ≤ e.full_context_attempts)

/-- `RetryContext.record_attempt` (src/app.py:108-116). -/
def record_attempt (e : EngSt) (is_probe success : Bool)
    (u k : Option String) : EngSt :=
  if is_probe then
    if success then
      { e with probe_attempts := e.probe_attempts + 1, lastUrl := u, lastKey := k }
    else { e with probe_attempts := e.probe_attempts + 1 }
  else { e with full_context_attempts := e.full_context_attempts + 1 }

/-- One send of the engine: which (URL, key) was tried and whether the body
chosen by `get_request_body` was the probe body. -/
structure Att where
  url : String
  key : String
  isProbe : Bool

inductive Outcome where
  | success (status : Nat)
  | pass4xx (status : Nat)
  | contentError (status : Nat)
  | probeFullFailed
  | exhausted
  | scriptEnd

/-- `'负载' in error_msg or 'overload' in error_msg.lower()` (src/app.py:901). -/
def overloadMsg (e : ErrInfo) : Bool :=
  pyContains e.msg ("负载".data) || pyContains (pyLower e.msg) ("overload".data)

/-- `error_type in ('authentication_error', 'invalid_api_key',
'permission_error')` (src/app.py:906, 937). -/
def authErrType (e : ErrInfo) : Bool :=
  decide (e.etype = "authentication_error") ||
  decide (e.etype = "invalid_api_key") ||
  decide (e.etype = "permission_error")

/-- `'var arg1=' in resp_text` (src/app.py:879). -/
def hasWafMarker (text : List Char) : Bool :=
  pyContains text ("var arg1=".data)

/-- `error_type in ('invalid_request_error', 'content_policy_violation',
'request_too_large')` (src/app.py:827). -/
def contentErrType (e : ErrInfo) : Bool :=
  decide (e.etype = "invalid_request_error") ||
  decide (e.etype = "content_policy_violation") ||
  decide (e.etype = "request_too_large")

/-- The latch flip and budget refund of the one-shot nonessential retry
(src/app.py:910-914 and 941-945). -/
def authFlip (e : EngSt) : EngSt :=
  { e with sys := { e.sys with nonessential := true, envFlag := true },
           full_context_attempts := e.full_context_attempts - 1 }

/-- The attempt loop `for attempt in range(1, MAX_RETRY_ATTEMPTS + 1)`
(src/app.py:776-971) for one (URL, key) pair; `fuel` counts the remaining
attempts including the current one, so `0 < fuel` after consuming the
current attempt corresponds to `attempt < MAX_RETRY_ATTEMPTS`.  The result
is the new state, the remaining script, the extended trace, and `some o`
when `proxy` returns (`none` = fall through to the next key). -/
def runAttempts (now : Nat) (u k : String) (isProbe : Bool) :
    Nat → EngSt → List ScriptItem → List Att →
    EngSt × List ScriptItem × List Att × Option Outcome
  | 0, e, sc, tr => (e, sc, tr, none)
  | fuel + 1, e, sc, tr =>
    match sc with
    | [] => (e, [], tr, some .scriptEnd)
    | item :: sc' =>
      let tr' := tr ++ [⟨u, k, isProbe⟩]
      match item with
      | .exn =>
        -- `except httpx.RequestError` (src/app.py:962-971)
        let e1 := record_attempt e isProbe false none none
        if 0 < fuel then runAttempts now u k isProbe fuel e1 sc' tr'
        else (e1, sc', tr', none)
      | .resp r =>
        if r.status < 400 then
          let e1 := record_attempt e isProbe true (some u) (some k)
          if isProbe then
            -- probe succeeded: re-send the full body (src/app.py:801-848)
            match sc' with
            | [] => (e1, [], tr', some .scriptEnd)
            | .exn :: sc'' =>
              -- an httpx error of the re-send is caught by the same handler
              let e2 := record_attempt e1 isProbe false none none
              if 0 < fuel then runAttempts now u k isProbe fuel e2 sc'' tr'
              else (e2, sc'', tr', none)
            | .resp fr :: sc'' =>
              if 400 ≤ fr.status then
                let e2 := { e1 with psbf := true }
                match fr.parsed with
                | some fe =>
                  if contentErrType fe then
                    (e2, sc'', tr', some (.contentError fr.status))
                  else (e2, sc'', tr', none)
                | none => (e2, sc'', tr', none)
              else
                ({ e1 with sys := confirm_cooldown_for_url e1.sys u now },
                 sc'', tr', some (.success fr.status))
          else
            ({ e1 with sys := confirm_cooldown_for_url e1.sys u now },
             sc', tr', some (.success r.status))
        else
          let e1 := record_attempt e isProbe false none none
          if hasWafMarker r.text then
            -- WAF challenge: refresh cookie (jar elided), retry or give up
            if 0 < fuel then runAttempts now u k isProbe fuel e1 sc' tr'
            else (e1, sc', tr', none)
          else if 500 ≤ r.status then
            match (if r.ctJson then r.parsed else none) with
            | some err =>
              if overloadMsg err then (e1, sc', tr', none)
              else if authErrType err then
                if e1.sys.nonessential = false ∧ isProbe = false then
                  let e2 := authFlip e1
                  if 0 < fuel then runAttempts now u k isProbe fuel e2 sc' tr'
                  else (e2, sc', tr', none)
                else
                  ({ e1 with sys := add_pending_cooldown e1.sys u k },
                   sc', tr', none)
              else if 0 < fuel then runAttempts now u k isProbe fuel e1 sc' tr'
              else (e1, sc', tr', none)
            | none =>
              if 0 < fuel then runAttempts now u k isProbe fuel e1 sc' tr'
              else (e1, sc', tr', none)
          else if r.status = 401 ∨ r.status = 403 then
            match r.parsed with
            | some err =>
              if authErrType err then
                if e1.sys.nonessential = false ∧ isProbe = false then
                  let e2 := authFlip e1
                  if 0 < fuel then runAttempts now u k isProbe fuel e2 sc' tr'
                  else (e2, sc', tr', none)
                else
                  ({ e1 with sys := add_pending_cooldown e1.sys u k },
                   sc', tr', none)
              else (e1, sc', tr', some (.pass4xx r.status))
            | none => (e1, sc', tr', some (.pass4xx r.status))
          else (e1, sc', tr', some (.pass4xx r.status))

/-- The key loop `for key_idx, current_api_key in enumerate(sorted_keys)`
(src/app.py:736-971): the probe decision and the usage increment happen
once per key. -/
def runKeys (now : Nat) (u : String) :
    List String → EngSt → List ScriptItem → List Att →
    EngSt × List ScriptItem × List Att × Option Outcome
  | [], e, sc, tr => (e, sc, tr, none)
  | k :: ks, e, sc, tr =>
    let isProbe := should_use_probe e
    let e0 := { e with sys := increment_key_usage e.sys k }
    match runAttempts now u k isProbe MAX_RETRY_ATTEMPTS e0 sc tr with
    | (e1, sc1, tr1, some o) => (e1, sc1, tr1, some o)
    | (e1, sc1, tr1, none) => runKeys now u ks e1 sc1 tr1

/-- The URL loop `for url_idx, current_base_url in enumerate(available_urls)`
(src/app.py:723-971). -/
def runUrls (now : Nat) (keys : List String) :
    List String → EngSt → List ScriptItem → List Att →
    EngSt × List ScriptItem × List Att × Option Outcome
  | [], e, sc, tr => (e, sc, tr, none)
  | u :: us, e, sc, tr =>
    match runKeys now u keys e sc tr with
    | (e1, sc1, tr1, some o) => (e1, sc1, tr1, some o)
    | (e1, sc1, tr1, none) => runUrls now keys us e1 sc1 tr1

/-- One request through the failover engine (src/app.py:705-1004): a fresh
`RetryContext` over the snapshot URL and key lists and the scripted
upstream; when every pair fails, the 502 error type depends on
`probe_succeeded_but_full_failed`. -/
def runEngine (now : Nat) (urls keys : List String) (sys0 : St)
    (sc : List ScriptItem) : EngSt × List Att × Outcome :=
  match runUrls now keys urls ⟨sys0, 0, 0, false, none, none⟩ sc [] with
  | (e1, _, tr1, some o) => (e1, tr1, o)
  | (e1, _, tr1, none) =>
    (e1, tr1, if e1.psbf then Outcome.probeFullFailed else Outcome.exhausted)

/-! ### Claim C10: probe mode is absorbing -/

lemma record_fullA_ge (e : EngSt) (p s : Bool) (u' k' : Option String) :
    e.full_context_attempts ≤ (record_attempt e p s u' k').full_context_attempts := by
  simp only [record_attempt]
  split_ifs <;> simp <;> omega

lemma record_probe_fullA (e : EngSt) (s : Bool) (u' k' : Option String) :
    (record_attempt e true s u' k').full_context_attempts = e.full_context_attempts := by
  simp only [record_attempt]
  split_ifs <;> rfl

lemma runAttempts_fullA_mono (now : Nat) (u k : String) (isProbe : Bool) :
    ∀ (fuel : Nat) (e : EngSt) (sc : List ScriptItem) (tr : List Att),
      e.full_context_attempts ≤
        (runAttempts now u k isProbe fuel e sc tr).1.full_context_attempts := by
  intro fuel
  induction fuel with
  | zero => intro e sc tr; simp [runAttempts]
  | succ fuel ih =>
    intro e sc tr
    rw [runAttempts.eq_def]
    cases sc with
    | nil => simp
    | cons item sc' =>
      cases item with
      | exn =>
        dsimp only
        split
        · exact le_trans (record_fullA_ge e isProbe false none none) (ih _ _ _)
        · exact record_fullA_ge e isProbe false none none
      | resp r =>
        dsimp only
        by_cases hst : r.status < 400
        · rw [if_pos hst]
          by_cases hp : isProbe
          · subst hp
            rw [if_pos rfl]
            cases sc' with
            | nil => exact record_fullA_ge e true true (some u) (some k)
            | cons item2 sc'' =>
              cases item2 with
              | exn =>
                dsimp only
                split
                · exact le_trans (record_fullA_ge e true true (some u) (some k))
                    (le_trans (record_fullA_ge (record_attempt e true true (some u) (some k)) true false none none) (ih _ _ _))
                · exact le_trans (record_fullA_ge e true true (some u) (some k))
                    (record_fullA_ge (record_attempt e true true (some u) (some k)) true false none none)
              | resp fr =>
                dsimp only
                split
                · split
                  · split
                    · exact record_fullA_ge e true true (some u) (some k)
                    · exact record_fullA_ge e true true (some u) (some k)
                  · exact record_fullA_ge e true true (some u) (some k)
                · exact record_fullA_ge e true true (some u) (some k)
          · rw [if_neg hp]
            exact record_fullA_ge e isProbe true (some u) (some k)
        · rw [if_neg hst]
          by_cases hwaf : hasWafMarker r.text
          · rw [if_pos hwaf]
            split
            · exact le_trans (record_fullA_ge e isProbe false none none) (ih _ _ _)
            · exact record_fullA_ge e isProbe false none none
          · rw [if_neg hwaf]
            by_cases h5 : 500 ≤ r.status
            · rw [if_pos h5]
              cases hpj : (if r.ctJson then r.parsed else none) with
              | none =>
                dsimp only
                split
                · exact le_trans (record_fullA_ge e isProbe false none none) (ih _ _ _)
                · exact record_fullA_ge e isProbe false none none
              | some err =>
                dsimp only
                by_cases hov : overloadMsg err
                · rw [if_pos hov]
                  exact record_fullA_ge e isProbe false none none
                · rw [if_neg hov]
                  by_cases hau : authErrType err
                  · rw [if_pos hau]
                    split
                    · rename_i hcond
                      have hp : isProbe = false := hcond.2
                      subst hp
                      have hmid : e.full_context_attempts ≤
                          (authFlip (record_attempt e false false none none)).full_context_attempts := by
                        simp [authFlip, record_attempt]
                      split
                      · exact le_trans hmid (ih _ _ _)
                      · exact hmid
                    · exact record_fullA_ge e isProbe false none none
                  · rw [if_neg hau]
                    split
                    · exact le_trans (record_fullA_ge e isProbe false none none) (ih _ _ _)
                    · exact record_fullA_ge e isProbe false none none
            · rw [if_neg h5]
              by_cases h4 : r.status = 401 ∨ r.status = 403
              · rw [if_pos h4]
                cases r.parsed with
                | none => exact record_fullA_ge e isProbe false none none
                | some err =>
                  dsimp only
                  by_cases hau : authErrType err
                  · rw [if_pos hau]
                    split
                    · rename_i hcond
                      have hp : isProbe = false := hcond.2
                      subst hp
                      have hmid : e.full_context_attempts ≤
                          (authFlip (record_attempt e false false none none)).full_context_attempts := by
                        simp [authFlip, record_attempt]
                      split
                      · exact le_trans hmid (ih _ _ _)
                      · exact hmid
                    · exact record_fullA_ge e isProbe false none none
                  · rw [if_neg hau]
                    exact record_fullA_ge e isProbe false none none
              · rw [if_neg h4]
                exact record_fullA_ge e isProbe false none none

lemma runAttempts_trace_probe (now : Nat) (u k : String) (isProbe : Bool) :
    ∀ (fuel : Nat) (e : EngSt) (sc : List ScriptItem) (tr : List Att),
      (∃ new, (runAttempts now u k isProbe fuel e sc tr).2.2.1 = tr ++ new ∧
        ∀ a ∈ new, a.isProbe = isProbe) ∧
      (isProbe = true →
        (runAttempts now u k isProbe fuel e sc tr).1.full_context_attempts =
          e.full_context_attempts) := by
  have single : ∀ a ∈ [(⟨u, k, isProbe⟩ : Att)], a.isProbe = isProbe := by
    intro a ha
    simp only [List.mem_singleton] at ha
    subst ha
    rfl
  intro fuel
  induction fuel with
  | zero =>
    intro e sc tr
    exact ⟨⟨[], by simp [runAttempts], by simp⟩, fun _ => by simp [runAttempts]⟩
  | succ fuel ih =>
    intro e sc tr
    rw [runAttempts.eq_def]
    cases sc with
    | nil => exact ⟨⟨[], by simp, by simp⟩, fun _ => by simp⟩
    | cons item sc' =>
      cases item with
      | exn =>
        dsimp only
        split
        · obtain ⟨⟨new', hnew', hfl'⟩, hpf⟩ := ih (record_attempt e isProbe false none none) sc' (tr ++ [⟨u, k, isProbe⟩])
          refine ⟨⟨⟨u, k, isProbe⟩ :: new', by rw [hnew']; simp, ?_⟩, ?_⟩
          · intro a ha
            rcases List.mem_cons.mp ha with rfl | ha
            · rfl
            · exact hfl' a ha
          · intro hp
            rw [hpf hp, hp, record_probe_fullA]
        · refine ⟨⟨[⟨u, k, isProbe⟩], rfl, single⟩, ?_⟩
          intro hp
          rw [hp]
          exact record_probe_fullA e false none none
      | resp r =>
        dsimp only
        by_cases hst : r.status < 400
        · rw [if_pos hst]
          by_cases hp : isProbe
          · subst hp
            rw [if_pos rfl]
            cases sc' with
            | nil => exact ⟨⟨[⟨u, k, true⟩], rfl, single⟩, fun _ => record_probe_fullA e true (some u) (some k)⟩
            | cons item2 sc'' =>
              cases item2 with
              | exn =>
                dsimp only
                split
                · obtain ⟨⟨new', hnew', hfl'⟩, hpf⟩ := ih (record_attempt (record_attempt e true true (some u) (some k)) true false none none) sc'' (tr ++ [⟨u, k, true⟩])
                  refine ⟨⟨⟨u, k, true⟩ :: new', by rw [hnew']; simp, ?_⟩, ?_⟩
                  · intro a ha
                    rcases List.mem_cons.mp ha with rfl | ha
                    · rfl
                    · exact hfl' a ha
                  · intro _
                    rw [hpf rfl, record_probe_fullA, record_probe_fullA]
                · refine ⟨⟨[⟨u, k, true⟩], rfl, single⟩, ?_⟩
                  intro _
                  show (record_attempt (record_attempt e true true (some u) (some k)) true false none none).full_context_attempts = _
                  rw [record_probe_fullA, record_probe_fullA]
              | resp fr =>
                dsimp only
                split
                · split
                  · split
                    · exact ⟨⟨[⟨u, k, true⟩], rfl, single⟩, fun _ => record_probe_fullA e true (some u) (some k)⟩
                    · exact ⟨⟨[⟨u, k, true⟩], rfl, single⟩, fun _ => record_probe_fullA e true (some u) (some k)⟩
                  · exact ⟨⟨[⟨u, k, true⟩], rfl, single⟩, fun _ => record_probe_fullA e true (some u) (some k)⟩
                · exact ⟨⟨[⟨u, k, true⟩], rfl, single⟩, fun _ => record_probe_fullA e true (some u) (some k)⟩
          · rw [if_neg hp]
            refine ⟨⟨[⟨u, k, isProbe⟩], rfl, single⟩, fun hpp => absurd hpp (by simpa using hp)⟩
        · rw [if_neg hst]
          by_cases hwaf : hasWafMarker r.text
          · rw [if_pos hwaf]
            split
            · obtain ⟨⟨new', hnew', hfl'⟩, hpf⟩ := ih (record_attempt e isProbe false none none) sc' (tr ++ [⟨u, k, isProbe⟩])
              refine ⟨⟨⟨u, k, isProbe⟩ :: new', by rw [hnew']; simp, ?_⟩, ?_⟩
              · intro a ha
                rcases List.mem_cons.mp ha with rfl | ha
                · rfl
                · exact hfl' a ha
              · intro hpp
                rw [hpf hpp, hpp, record_probe_fullA]
            · refine ⟨⟨[⟨u, k, isProbe⟩], rfl, single⟩, ?_⟩
              intro hpp
              rw [hpp]
              exact record_probe_fullA e false none none
          · rw [if_neg hwaf]
            by_cases h5 : 500 ≤ r.status
            · rw [if_pos h5]
              cases hpj : (if r.ctJson then r.parsed else none) with
              | none =>
                dsimp only
                split
                · obtain ⟨⟨new', hnew', hfl'⟩, hpf⟩ := ih (record_attempt e isProbe false none none) sc' (tr ++ [⟨u, k, isProbe⟩])
                  refine ⟨⟨⟨u, k, isProbe⟩ :: new', by rw [hnew']; simp, ?_⟩, ?_⟩
                  · intro a ha
                    rcases List.mem_cons.mp ha with rfl | ha
                    · rfl
                    · exact hfl' a ha
                  · intro hpp
                    rw [hpf hpp, hpp, record_probe_fullA]
                · refine ⟨⟨[⟨u, k, isProbe⟩], rfl, single⟩, ?_⟩
                  intro hpp
                  rw [hpp]
                  exact record_probe_fullA e false none none
              | some err =>
                dsimp only
                by_cases hov : overloadMsg err
                · rw [if_pos hov]
                  refine ⟨⟨[⟨u, k, isProbe⟩], rfl, single⟩, ?_⟩
                  intro hpp
                  rw [hpp]
                  exact record_probe_fullA e false none none
                · rw [if_neg hov]
                  by_cases hau : authErrType err
                  · rw [if_pos hau]
                    split
                    · rename_i hcond
                      split
                      · obtain ⟨⟨new', hnew', hfl'⟩, hpf⟩ := ih (authFlip (record_attempt e isProbe false none none)) sc' (tr ++ [⟨u, k, isProbe⟩])
                        refine ⟨⟨⟨u, k, isProbe⟩ :: new', by rw [hnew']; simp, ?_⟩, ?_⟩
                        · intro a ha
                          rcases List.mem_cons.mp ha with rfl | ha
                          · rfl
                          · exact hfl' a ha
                        · intro hpp
                          exact absurd hpp (by simp [hcond.2])
                      · refine ⟨⟨[⟨u, k, isProbe⟩], rfl, single⟩, ?_⟩
                        intro hpp
                        exact absurd hpp (by simp [hcond.2])
                    · refine ⟨⟨[⟨u, k, isProbe⟩], rfl, single⟩, ?_⟩
                      intro hpp
                      rw [hpp]
                      exact record_probe_fullA e false none none
                  · rw [if_neg hau]
                    split
                    · obtain ⟨⟨new', hnew', hfl'⟩, hpf⟩ := ih (record_attempt e isProbe false none none) sc' (tr ++ [⟨u, k, isProbe⟩])
                      refine ⟨⟨⟨u, k, isProbe⟩ :: new', by rw [hnew']; simp, ?_⟩, ?_⟩
                      · intro a ha
                        rcases List.mem_cons.mp ha with rfl | ha
                        · rfl
                        · exact hfl' a ha
                      · intro hpp
                        rw [hpf hpp, hpp, record_probe_fullA]
                    · refine ⟨⟨[⟨u, k, isProbe⟩], rfl, single⟩, ?_⟩
                      intro hpp
                      rw [hpp]
                      exact record_probe_fullA e false none none
            · rw [if_neg h5]
              by_cases h4 : r.status = 401 ∨ r.status = 403
              · rw [if_pos h4]
                cases r.parsed with
                | none =>
                  exact ⟨⟨[⟨u, k, isProbe⟩], rfl, single⟩, fun hpp => by
                    rw [hpp]; exact record_probe_fullA e false none none⟩
                | some err =>
                  dsimp only
                  by_cases hau : authErrType err
                  · rw [if_pos hau]
                    split
                    · rename_i hcond
                      split
                      · obtain ⟨⟨new', hnew', hfl'⟩, hpf⟩ := ih (authFlip (record_attempt e isProbe false none none)) sc' (tr ++ [⟨u, k, isProbe⟩])
                        refine ⟨⟨⟨u, k, isProbe⟩ :: new', by rw [hnew']; simp, ?_⟩, ?_⟩
                        · intro a ha
                          rcases List.mem_cons.mp ha with rfl | ha
                          · rfl
                          · exact hfl' a ha
                        · intro hpp
                          exact absurd hpp (by simp [hcond.2])
                      · refine ⟨⟨[⟨u, k, isProbe⟩], rfl, single⟩, ?_⟩
                        intro hpp
                        exact absurd hpp (by simp [hcond.2])
                    · refine ⟨⟨[⟨u, k, isProbe⟩], rfl, single⟩, ?_⟩
                      intro hpp
                      rw [hpp]
                      exact record_probe_fullA e false none none
                  · rw [if_neg hau]
                    exact ⟨⟨[⟨u, k, isProbe⟩], rfl, single⟩, fun hpp => by
                      rw [hpp]; exact record_probe_fullA e false none none⟩
              · rw [if_neg h4]
                exact ⟨⟨[⟨u, k, isProbe⟩], rfl, single⟩, fun hpp => by
                  rw [hpp]; exact record_probe_fullA e false none none⟩

/-- Trace monotonicity relation: once an attempt is made with the probe
body, later attempts are too. -/
def flagRel (a b : Att) : Prop := a.isProbe = true → b.isProbe = true

lemma runKeys_spec (now : Nat) (u : String) :
    ∀ (ks : List String) (e : EngSt) (sc : List ScriptItem) (tr : List Att),
      e.full_context_attempts ≤ (runKeys now u ks e sc tr).1.full_context_attempts ∧
      ∃ new, (runKeys now u ks e sc tr).2.2.1 = tr ++ new ∧
        new.Pairwise flagRel ∧
        (2 ≤ e.full_context_attempts → ∀ a ∈ new, a.isProbe = true) ∧
        (∀ a ∈ new, a.isProbe = true →
          2 ≤ (runKeys now u ks e sc tr).1.full_context_attempts) := by
  intro ks
  induction ks with
  | nil =>
    intro e sc tr
    exact ⟨le_refl _, [], by simp [runKeys], List.Pairwise.nil, by simp, by simp [runKeys]⟩
  | cons k ks ih =>
    intro e sc tr
    have hmono := runAttempts_fullA_mono now u k (should_use_probe e)
      MAX_RETRY_ATTEMPTS { e with sys := increment_key_usage e.sys k } sc tr
    have htr := (runAttempts_trace_probe now u k (should_use_probe e)
      MAX_RETRY_ATTEMPTS { e with sys := increment_key_usage e.sys k } sc tr).1
    obtain ⟨new1, hnew1, hfl1⟩ := htr
    have hprobeflag : 2 ≤ e.full_context_attempts → should_use_probe e = true := by
      intro h2
      simp [should_use_probe, h2]
    have hflag2 : should_use_probe e = true → 2 ≤ e.full_context_attempts := by
      intro h
      simpa [should_use_probe] using h
    rw [runKeys.eq_def]
    dsimp only
    rcases hh : runAttempts now u k (should_use_probe e) MAX_RETRY_ATTEMPTS
        { e with sys := increment_key_usage e.sys k } sc tr with ⟨e1, sc1, tr1, o⟩
    rw [hh] at hmono hnew1
    dsimp only at hmono hnew1
    have hconstmono : new1.Pairwise flagRel := by
      refine List.pairwise_iff_forall_sublist.mpr ?_
      intro a b hab
      have ha := hfl1 a (hab.subset (by simp))
      have hb := hfl1 b (hab.subset (by simp))
      intro hpa
      rw [hb, ← ha, hpa]
    cases o with
    | some o2 =>
      dsimp only
      refine ⟨hmono, new1, hnew1, hconstmono, ?_, ?_⟩
      · intro h2 a ha
        rw [hfl1 a ha]
        exact hprobeflag h2
      · intro a ha hpa
        have hisp : should_use_probe e = true := by rw [← hfl1 a ha, hpa]
        exact le_trans (hflag2 hisp) hmono
    | none =>
      dsimp only
      obtain ⟨hmono2, new2, hnew2, hpw2, habs2, hforce2⟩ := ih e1 sc1 tr1
      refine ⟨le_trans hmono hmono2, new1 ++ new2, ?_, ?_, ?_, ?_⟩
      · rw [hnew2, hnew1, List.append_assoc]
      · rw [List.pairwise_append]
        refine ⟨hconstmono, hpw2, ?_⟩
        intro a ha b hb hpa
        have hisp : should_use_probe e = true := by rw [← hfl1 a ha, hpa]
        exact habs2 (le_trans (hflag2 hisp) hmono) b hb
      · intro h2 a ha
        rcases List.mem_append.mp ha with ha1 | ha2
        · rw [hfl1 a ha1]
          exact hprobeflag h2
        · exact habs2 (le_trans h2 hmono) a ha2
      · intro a ha hpa
        rcases List.mem_append.mp ha with ha1 | ha2
        · have hisp : should_use_probe e = true := by rw [← hfl1 a ha1, hpa]
          exact le_trans (le_trans (hflag2 hisp) hmono) hmono2
        · exact hforce2 a ha2 hpa

lemma runUrls_spec (now : Nat) (keys : List String) :
    ∀ (us : List String) (e : EngSt) (sc : List ScriptItem) (tr : List Att),
      e.full_context_attempts ≤ (runUrls now keys us e sc tr).1.full_context_attempts ∧
      ∃ new, (runUrls now keys us e sc tr).2.2.1 = tr ++ new ∧
        new.Pairwise flagRel ∧
        (2 ≤ e.full_context_attempts → ∀ a ∈ new, a.isProbe = true) ∧
        (∀ a ∈ new, a.isProbe = true →
          2 ≤ (runUrls now keys us e sc tr).1.full_context_attempts) := by
  intro us
  induction us with
  | nil =>
    intro e sc tr
    exact ⟨le_refl _, [], by simp [runUrls], List.Pairwise.nil, by simp, by simp [runUrls]⟩
  | cons u us ih =>
    intro e sc tr
    obtain ⟨hmono, new1, hnew1, hpw1, habs1, hforce1⟩ := runKeys_spec now u keys e sc tr
    rw [runUrls.eq_def]
    dsimp only
    rcases hh : runKeys now u keys e sc tr with ⟨e1, sc1, tr1, o⟩
    rw [hh] at hmono hnew1 hforce1
    dsimp only at hmono hnew1 hforce1
    cases o with
    | some o2 =>
      dsimp only
      exact ⟨hmono, new1, hnew1, hpw1, habs1, hforce1⟩
    | none =>
      dsimp only
      obtain ⟨hmono2, new2, hnew2, hpw2, habs2, hforce2⟩ := ih e1 sc1 tr1
      refine ⟨le_trans hmono hmono2, new1 ++ new2, ?_, ?_, ?_, ?_⟩
      · rw [hnew2, hnew1, List.append_assoc]
      · rw [List.pairwise_append]
        refine ⟨hpw1, hpw2, ?_⟩
        intro a ha b hb hpa
        exact habs2 (hforce1 a ha hpa) b hb
      · intro h2 a ha
        rcases List.mem_append.mp ha with ha1 | ha2
        · exact habs1 h2 a ha1
        · exact habs2 (le_trans h2 hmono) a ha2
      · intro a ha hpa
        rcases List.mem_append.mp ha with ha1 | ha2
        · exact le_trans (hforce1 a ha1 hpa) hmono2
        · exact hforce2 a ha2 hpa

/-- A plain success response (defined before its first use; see also the C5
section). -/
def ok200c : UpResp := ⟨200, [], false, none⟩

/-- A plain 5xx without a JSON content type: the generic retry branch of
src/app.py:923-929. -/
def plain500 : UpResp := ⟨500, [], false, none⟩

/-- A 5xx overload response used by the C10 counterexample run (defined
before its first use; see also the C5 section). -/
def over500c : UpResp := ⟨500, [], true, some ⟨"overloaded".data, ""⟩⟩

/-- The engine state entering the second key of the C10 counterexample run:
one full attempt recorded (`full_context_attempts = 1`, below the probe
threshold), usage already incremented for both tried keys. -/
def c10pre : EngSt :=
  ⟨⟨[], [], [], [("k1", 1), ("k2", 1)], false, false⟩, 1, 0, false, none, none⟩

/-- Counterexample to C10 as stated.  The request body is chosen once per
key iteration (src/app.py:740-741), so "the counter reaches 2" does not by
itself switch the body.  In this run: key `k1` takes one full attempt
(overload, counter 0 → 1) and breaks; key `k2` is entered below the
threshold, so its snapshot is the full body; its first attempt (a plain
5xx) raises the counter to 2 — `should_use_probe` would now answer true —
yet the `continue` sends the SECOND attempt of `k2` with the full body
(`isProbe = false` in the trace); only key `k3` switches to the probe
body.  The third conjunct exhibits the offending step: from the recorded
state with counter 2 the loop proceeds on the same stale full-body
snapshot. -/
theorem C10_probe_cex :
    (runEngine 0 ["u1"] ["k1", "k2", "k3"] emptySt
      [ScriptItem.resp over500c, ScriptItem.resp plain500, ScriptItem.resp plain500,
       ScriptItem.resp ok200c, ScriptItem.resp ok200c]).2.1 =
      [⟨"u1", "k1", false⟩, ⟨"u1", "k2", false⟩, ⟨"u1", "k2", false⟩,
       ⟨"u1", "k3", true⟩] ∧
    (record_attempt c10pre false false none none).full_context_attempts = 2 ∧
    should_use_probe (record_attempt c10pre false false none none) = true ∧
    runAttempts 0 "u1" "k2" false (1 + 1) c10pre
      [ScriptItem.resp plain500, ScriptItem.resp plain500, ScriptItem.resp ok200c,
       ScriptItem.resp ok200c] [⟨"u1", "k1", false⟩] =
    runAttempts 0 "u1" "k2" false 1 (record_attempt c10pre false false none none)
      [ScriptItem.resp plain500, ScriptItem.resp ok200c, ScriptItem.resp ok200c]
      ([⟨"u1", "k1", false⟩] ++ [⟨"u1", "k2", false⟩]) :=
  ⟨rfl, rfl, rfl, rfl⟩

/-- C10 (amended).  Probe mode is absorbing at the granularity of the
per-key body snapshot: in the trace of any engine run, once an attempt is
sent with the probe body every later attempt is too; whenever the key loop
(or the rest of the URL loop) is entered with the full-attempt counter
already at least 2, every attempt it produces uses the probe body; and a
probe attempt never changes the full-attempt counter (the one-shot
nonessential decrement is guarded to non-probe snapshots), so the probe
decision never flips back.  (An attempt whose body was snapshotted below
the threshold can still send the full body after the counter reaches 2
within the same key iteration — the counterexample above.) -/
theorem C10_probe_mode_absorbing (now : Nat) (urls keys : List String)
    (sys0 : St) (sc : List ScriptItem) :
    (runEngine now urls keys sys0 sc).2.1.Pairwise flagRel ∧
    (∀ (u : String) (ks : List String) (e : EngSt) (sc2 : List ScriptItem),
      2 ≤ e.full_context_attempts →
      ∀ a ∈ (runKeys now u ks e sc2 []).2.2.1, a.isProbe = true) ∧
    (∀ (us : List String) (e : EngSt) (sc2 : List ScriptItem),
      2 ≤ e.full_context_attempts →
      ∀ a ∈ (runUrls now keys us e sc2 []).2.2.1, a.isProbe = true) ∧
    (∀ (u k : String) (fuel : Nat) (e : EngSt) (sc2 : List ScriptItem)
      (tr : List Att),
      (runAttempts now u k true fuel e sc2 tr).1.full_context_attempts =
        e.full_context_attempts) := by
  refine ⟨?_, ?_, ?_, ?_⟩
  · obtain ⟨_, new, hnew, hpw, _, _⟩ :=
      runUrls_spec now keys urls ⟨sys0, 0, 0, false, none, none⟩ sc []
    rw [runEngine.eq_def]
    rcases hh : runUrls now keys urls ⟨sys0, 0, 0, false, none, none⟩ sc []
      with ⟨e1, sc1, tr1, o⟩
    rw [hh] at hnew
    dsimp only at hnew
    cases o with
    | some o2 =>
      dsimp only
      rw [hnew]
      simpa using hpw
    | none =>
      dsimp only
      rw [hnew]
      simpa using hpw
  · intro u ks e sc2 h2 a ha
    obtain ⟨_, new, hnew, _, habs, _⟩ := runKeys_spec now u ks e sc2 []
    rw [hnew] at ha
    simp only [List.nil_append] at ha
    exact habs h2 a ha
  · intro us e sc2 h2 a ha
    obtain ⟨_, new, hnew, _, habs, _⟩ := runUrls_spec now keys us e sc2 []
    rw [hnew] at ha
    simp only [List.nil_append] at ha
    exact habs h2 a ha
  · intro u k fuel e sc2 tr
    exact (runAttempts_trace_probe now u k true fuel e sc2 tr).2 rfl

/-- The engine state of the C10 witness: the probe threshold already
reached. -/
def c10probeE : EngSt := ⟨emptySt, 2, 0, false, none, none⟩

/-- Witness for C10 (amended): a key loop entered at counter 2 sends only
probe-body attempts. -/
theorem C10_probe_mode_absorbing_witness :
    2 ≤ c10probeE.full_context_attempts ∧
    (∀ a ∈ (runKeys 0 "u1" ["k1"] c10probeE
      [ScriptItem.resp ok200c, ScriptItem.resp ok200c] []).2.2.1,
      a.isProbe = true) :=
  ⟨by decide,
   (C10_probe_mode_absorbing 0 ["u1"] ["k1"] emptySt []).2.1 "u1" ["k1"] c10probeE
     [ScriptItem.resp ok200c, ScriptItem.resp ok200c] (by decide)⟩

/-! ### Claim C5: server-overload handling -/

/-- A 5xx overload response: JSON body whose `error.message` says the
upstream is overloaded. -/
def over500 : UpResp := ⟨500, [], true, some ⟨"Overloaded!".data, ""⟩⟩

/-- A plain success response. -/
def ok200 : UpResp := ⟨200, [], false, none⟩

/-- A 401 with JSON `error.type = authentication_error`. -/
def auth401 : UpResp := ⟨401, [], false, some ⟨[], "authentication_error"⟩⟩

/-- The engine state at the start of a request (src/app.py:713). -/
def engInit (sys : St) : EngSt := ⟨sys, 0, 0, false, none, none⟩

/-- Counterexample to C5 as stated.  Two URLs and two keys are available;
the first attempt (`u1`, `k1`) receives an upstream-overload 5xx.  The
claim says the engine then proceeds directly to the next candidate URL,
but the `break` only leaves the attempt loop: the very next attempt is
(`u1`, `k2`) — the next KEY on the SAME URL — and the run succeeds there
without ever reaching `u2`. -/
theorem C5_overload_cex :
    (runEngine 0 ["u1", "u2"] ["k1", "k2"] emptySt
      [ScriptItem.resp over500, ScriptItem.resp ok200]).2.1 =
      [⟨"u1", "k1", false⟩, ⟨"u1", "k2", false⟩] ∧
    (runEngine 0 ["u1", "u2"] ["k1", "k2"] emptySt
      [ScriptItem.resp over500, ScriptItem.resp ok200]).2.2 =
      Outcome.success 200 :=
  ⟨rfl, rfl⟩

/-- C5 (amended).  An upstream 5xx whose JSON `error.message` contains
`负载` or `overload` (case-insensitive) makes the engine abandon the
current (URL, key) pair at once — no further attempt on it — and proceed
to the NEXT KEY on the same URL (only after all keys are exhausted does
the URL loop advance); the state change is just the recorded attempt. -/
theorem C5_overload_amended (now : Nat) (u k : String) (r : UpResp)
    (err : ErrInfo)
    (hwaf : hasWafMarker r.text = false) (h5 : 500 ≤ r.status)
    (hct : r.ctJson = true) (hp : r.parsed = some err)
    (hov : overloadMsg err = true) :
    (∀ (isProbe : Bool) (fuel : Nat) (e : EngSt) (sc : List ScriptItem)
      (tr : List Att),
      runAttempts now u k isProbe (fuel + 1) e (ScriptItem.resp r :: sc) tr =
        (record_attempt e isProbe false none none, sc,
         tr ++ [⟨u, k, isProbe⟩], none)) ∧
    (∀ (ks : List String) (e : EngSt) (sc : List ScriptItem) (tr : List Att),
      runKeys now u (k :: ks) e (ScriptItem.resp r :: sc) tr =
        runKeys now u ks
          (record_attempt { e with sys := increment_key_usage e.sys k }
            (should_use_probe e) false none none)
          sc (tr ++ [⟨u, k, should_use_probe e⟩])) := by
  have hstep : ∀ (isProbe : Bool) (fuel : Nat) (e : EngSt)
      (sc : List ScriptItem) (tr : List Att),
      runAttempts now u k isProbe (fuel + 1) e (ScriptItem.resp r :: sc) tr =
        (record_attempt e isProbe false none none, sc,
         tr ++ [⟨u, k, isProbe⟩], none) := by
    intro isProbe fuel e sc tr
    rw [runAttempts.eq_def]
    dsimp only
    rw [if_neg (by omega : ¬ r.status < 400)]
    rw [if_neg (by simp [hwaf] : ¬ hasWafMarker r.text = true)]
    rw [if_pos h5, hct]
    rw [if_pos rfl, hp]
    dsimp only
    rw [if_pos hov]
  refine ⟨hstep, ?_⟩
  intro ks e sc tr
  rw [runKeys.eq_def]
  dsimp only
  have h2 : MAX_RETRY_ATTEMPTS = 1 + 1 := rfl
  rw [h2, hstep]

/-- Witness for C5 (amended): the counterexample scenario's first step. -/
theorem C5_overload_amended_witness :
    runKeys 0 "u1" ["k1", "k2"] (engInit emptySt)
      [ScriptItem.resp over500, ScriptItem.resp ok200] [] =
    runKeys 0 "u1" ["k2"]
      (record_attempt
        { engInit emptySt with
            sys := increment_key_usage (engInit emptySt).sys "k1" }
        (should_use_probe (engInit emptySt)) false none none)
      [ScriptItem.resp ok200]
      ([] ++ [⟨"u1", "k1", should_use_probe (engInit emptySt)⟩]) :=
  (C5_overload_amended 0 "u1" "k1" over500 ⟨"Overloaded!".data, ""⟩
    rfl (by decide) rfl rfl (by decide)).2
    ["k2"] (engInit emptySt) [ScriptItem.resp ok200] []

/-! ### Claim C3: auth-error handling and the nonessential latch -/

lemma record_sys (e : EngSt) (p s : Bool) (u' k' : Option String) :
    (record_attempt e p s u' k').sys = e.sys := by
  simp only [record_attempt]
  split_ifs <;> rfl

lemma add_pending_nonessential (st : St) (u k : String) :
    (add_pending_cooldown st u k).nonessential = st.nonessential := by
  simp only [add_pending_cooldown]
  cases alGet st.pending_cooldown_keys u <;> dsimp <;> split <;> rfl

lemma confirm_nonessential (st : St) (u : String) (t : Nat) :
    (confirm_cooldown_for_url st u t).nonessential = st.nonessential := by
  simp only [confirm_cooldown_for_url]
  cases alGet st.pending_cooldown_keys u with
  | none => rfl
  | some l => cases l <;> rfl

lemma incUse_nonessential (st : St) (k : String) :
    (increment_key_usage st k).nonessential = st.nonessential := by
  simp only [increment_key_usage]
  cases alGet st.key_usage_count k <;> rfl

lemma runAttempts_latch (now : Nat) (u k : String) (isProbe : Bool) :
    ∀ (fuel : Nat) (e : EngSt) (sc : List ScriptItem) (tr : List Att),
      e.sys.nonessential = true →
      (runAttempts now u k isProbe fuel e sc tr).1.sys.nonessential = true := by
  intro fuel
  induction fuel with
  | zero => intro e sc tr he; simpa [runAttempts] using he
  | succ fuel ih =>
    intro e sc tr he
    have hrec : (record_attempt e isProbe false none none).sys.nonessential = true := by
      rw [record_sys]; exact he
    have hrecT : (record_attempt e isProbe true (some u) (some k)).sys.nonessential = true := by
      rw [record_sys]; exact he
    rw [runAttempts.eq_def]
    cases sc with
    | nil => exact he
    | cons item sc' =>
      cases item with
      | exn =>
        dsimp only
        split
        · exact ih _ _ _ hrec
        · exact hrec
      | resp r =>
        dsimp only
        by_cases hst : r.status < 400
        · rw [if_pos hst]
          by_cases hpb : isProbe
          · subst hpb
            rw [if_pos rfl]
            cases sc' with
            | nil => exact hrecT
            | cons item2 sc'' =>
              cases item2 with
              | exn =>
                dsimp only
                have hrec2 : (record_attempt (record_attempt e true true (some u) (some k)) true false none none).sys.nonessential = true := by
                  rw [record_sys]; exact hrecT
                split
                · exact ih _ _ _ hrec2
                · exact hrec2
              | resp fr =>
                dsimp only
                split
                · split
                  · split
                    · exact hrecT
                    · exact hrecT
                  · exact hrecT
                · show (confirm_cooldown_for_url (record_attempt e true true (some u) (some k)).sys u now).nonessential = true
                  rw [confirm_nonessential]
                  exact hrecT
          · rw [if_neg hpb]
            show (confirm_cooldown_for_url (record_attempt e isProbe true (some u) (some k)).sys u now).nonessential = true
            rw [confirm_nonessential]
            exact hrecT
        · rw [if_neg hst]
          by_cases hwaf : hasWafMarker r.text
          · rw [if_pos hwaf]
            split
            · exact ih _ _ _ hrec
            · exact hrec
          · rw [if_neg hwaf]
            by_cases h5 : 500 ≤ r.status
            · rw [if_pos h5]
              cases hpj : (if r.ctJson then r.parsed else none) with
              | none =>
                dsimp only
                split
                · exact ih _ _ _ hrec
                · exact hrec
              | some err =>
                dsimp only
                by_cases hov : overloadMsg err
                · rw [if_pos hov]
                  exact hrec
                · rw [if_neg hov]
                  by_cases hau : authErrType err
                  · rw [if_pos hau]
                    split
                    · split
                      · exact ih _ _ _ rfl
                      · rfl
                    · show (add_pending_cooldown (record_attempt e isProbe false none none).sys u k).nonessential = true
                      rw [add_pending_nonessential]
                      exact hrec
                  · rw [if_neg hau]
                    split
                    · exact ih _ _ _ hrec
                    · exact hrec
            · rw [if_neg h5]
              by_cases h4 : r.status = 401 ∨ r.status = 403
              · rw [if_pos h4]
                cases r.parsed with
                | none => exact hrec
                | some err =>
                  dsimp only
                  by_cases hau : authErrType err
                  · rw [if_pos hau]
                    split
                    · split
                      · exact ih _ _ _ rfl
                      · rfl
                    · show (add_pending_cooldown (record_attempt e isProbe false none none).sys u k).nonessential = true
                      rw [add_pending_nonessential]
                      exact hrec
                  · rw [if_neg hau]
                    exact hrec
              · rw [if_neg h4]
                exact hrec

lemma runKeys_latch (now : Nat) (u : String) :
    ∀ (ks : List String) (e : EngSt) (sc : List ScriptItem) (tr : List Att),
      e.sys.nonessential = true →
      (runKeys now u ks e sc tr).1.sys.nonessential = true := by
  intro ks
  induction ks with
  | nil => intro e sc tr he; simpa [runKeys] using he
  | cons k ks ih =>
    intro e sc tr he
    have he0 : ({ e with sys := increment_key_usage e.sys k } : EngSt).sys.nonessential = true := by
      show (increment_key_usage e.sys k).nonessential = true
      rw [incUse_nonessential]
      exact he
    have hatt := runAttempts_latch now u k (should_use_probe e) MAX_RETRY_ATTEMPTS
      { e with sys := increment_key_usage e.sys k } sc tr he0
    rw [runKeys.eq_def]
    dsimp only
    rcases hh : runAttempts now u k (should_use_probe e) MAX_RETRY_ATTEMPTS
        { e with sys := increment_key_usage e.sys k } sc tr with ⟨e1, sc1, tr1, o⟩
    rw [hh] at hatt
    dsimp only at hatt
    cases o with
    | some o2 => exact hatt
    | none => exact ih e1 sc1 tr1 hatt

lemma runEngine_latch (now : Nat) (urls keys : List String) (sys0 : St)
    (sc : List ScriptItem) (h : sys0.nonessential = true) :
    (runEngine now urls keys sys0 sc).1.sys.nonessential = true := by
  have haux : ∀ (us : List String) (e : EngSt) (sc2 : List ScriptItem) (tr : List Att),
      e.sys.nonessential = true →
      (runUrls now keys us e sc2 tr).1.sys.nonessential = true := by
    intro us
    induction us with
    | nil => intro e sc2 tr he; simpa [runUrls] using he
    | cons u us ih =>
      intro e sc2 tr he
      have hk := runKeys_latch now u keys e sc2 tr he
      rw [runUrls.eq_def]
      dsimp only
      rcases hh : runKeys now u keys e sc2 tr with ⟨e1, sc1, tr1, o⟩
      rw [hh] at hk
      dsimp only at hk
      cases o with
      | some o2 => exact hk
      | none => exact ih e1 sc1 tr1 hk
  rw [runEngine.eq_def]
  have h0 := haux urls ⟨sys0, 0, 0, false, none, none⟩ sc [] h
  rcases hh : runUrls now keys urls ⟨sys0, 0, 0, false, none, none⟩ sc []
    with ⟨e1, sc1, tr1, o⟩
  rw [hh] at h0
  dsimp only at h0
  cases o with
  | some o2 => exact h0
  | none => exact h0

/-- Counterexample to C3 as stated.  One URL, two keys; (`u1`, `k1`) gets a
transport error on attempt 1 and an auth-classified 401 on attempt 2, with
the latch initially false and the attempt non-probe.  The claim says the
engine then "retries the same (URL, key)".  The latch does flip (and is
exported) and `full_attempts` is refunded, but the `continue` lands after
the last slot of `range(1, MAX_RETRY_ATTEMPTS + 1)`, so the next attempt is
the NEXT KEY (`u1`, `k2`), not the same pair — and the key is not buffered
in the pending-cooldown list either. -/
theorem C3_auth_cex :
    (runEngine 0 ["u1"] ["k1", "k2"] emptySt
      [ScriptItem.exn, ScriptItem.resp auth401, ScriptItem.resp ok200]).2.1 =
      [⟨"u1", "k1", false⟩, ⟨"u1", "k1", false⟩, ⟨"u1", "k2", false⟩] ∧
    (runEngine 0 ["u1"] ["k1", "k2"] emptySt
      [ScriptItem.exn, ScriptItem.resp auth401, ScriptItem.resp ok200]).1.sys.nonessential
      = true ∧
    (runEngine 0 ["u1"] ["k1", "k2"] emptySt
      [ScriptItem.exn, ScriptItem.resp auth401, ScriptItem.resp ok200]).1.sys.envFlag
      = true ∧
    (runEngine 0 ["u1"] ["k1", "k2"] emptySt
      [ScriptItem.exn, ScriptItem.resp auth401, ScriptItem.resp ok200]).1.sys.pending_cooldown_keys
      = [] ∧
    (runEngine 0 ["u1"] ["k1", "k2"] emptySt
      [ScriptItem.exn, ScriptItem.resp auth401, ScriptItem.resp ok200]).2.2 =
      Outcome.success 200 :=
  ⟨rfl, rfl, rfl, rfl, rfl⟩

/-- C3 (amended).  On an auth-classified upstream error (401/403, or ≥ 500
JSON with an auth `error.type`): (a) with the latch false and a non-probe
attempt, the engine sets the latch (exporting it to the environment),
refunds the just-consumed full attempt, and retries the same (URL, key)
PROVIDED an attempt slot remains — the retry consumes a slot of the
per-pair budget, and on the final slot the engine instead falls through to
the next key without buffering the key; (b) otherwise it appends the KeyId
to the URL's pending-cooldown buffer and moves to the next key; (c) the
latch, once true, stays true for any subsequent engine run, so the extra
retry happens at most once per process. -/
theorem C3_auth_amended (now : Nat) (u k : String) (r : UpResp) (err : ErrInfo)
    (hwaf : hasWafMarker r.text = false)
    (hcase : (500 ≤ r.status ∧ r.ctJson = true ∧ overloadMsg err = false) ∨
             (r.status = 401 ∨ r.status = 403))
    (hp : r.parsed = some err)
    (hau : authErrType err = true) :
    (∀ (fuel : Nat) (e : EngSt) (sc : List ScriptItem) (tr : List Att),
      e.sys.nonessential = false →
      (0 < fuel →
        runAttempts now u k false (fuel + 1) e (ScriptItem.resp r :: sc) tr =
          runAttempts now u k false fuel
            (authFlip (record_attempt e false false none none)) sc
            (tr ++ [⟨u, k, false⟩])) ∧
      (runAttempts now u k false (0 + 1) e (ScriptItem.resp r :: sc) tr =
        (authFlip (record_attempt e false false none none), sc,
         tr ++ [⟨u, k, false⟩], none)) ∧
      (authFlip (record_attempt e false false none none)).sys.nonessential = true ∧
      (authFlip (record_attempt e false false none none)).sys.envFlag = true ∧
      (authFlip (record_attempt e false false none none)).full_context_attempts =
        e.full_context_attempts) ∧
    (∀ (isProbe : Bool) (fuel : Nat) (e : EngSt) (sc : List ScriptItem)
      (tr : List Att),
      (e.sys.nonessential = true ∨ isProbe = true) →
      runAttempts now u k isProbe (fuel + 1) e (ScriptItem.resp r :: sc) tr =
        ({ record_attempt e isProbe false none none with
            sys := add_pending_cooldown
              (record_attempt e isProbe false none none).sys u k },
         sc, tr ++ [⟨u, k, isProbe⟩], none) ∧
      ∃ l, alGet (add_pending_cooldown
            (record_attempt e isProbe false none none).sys u k).pending_cooldown_keys u
          = some l ∧ keyIdLookup k ∈ l) ∧
    (∀ (urls keys : List String) (sys0 : St) (sc : List ScriptItem),
      sys0.nonessential = true →
      (runEngine now urls keys sys0 sc).1.sys.nonessential = true) := by
  have hred : ∀ (isProbe : Bool) (fuel : Nat) (e : EngSt) (sc : List ScriptItem)
      (tr : List Att),
      runAttempts now u k isProbe (fuel + 1) e (ScriptItem.resp r :: sc) tr =
        (if (record_attempt e isProbe false none none).sys.nonessential = false
            ∧ isProbe = false then
          (if 0 < fuel then
            runAttempts now u k isProbe fuel
              (authFlip (record_attempt e isProbe false none none)) sc
              (tr ++ [⟨u, k, isProbe⟩])
          else
            (authFlip (record_attempt e isProbe false none none), sc,
             tr ++ [⟨u, k, isProbe⟩], none))
        else
          ({ record_attempt e isProbe false none none with
              sys := add_pending_cooldown
                (record_attempt e isProbe false none none).sys u k },
           sc, tr ++ [⟨u, k, isProbe⟩], none)) := by
    intro isProbe fuel e sc tr
    rcases hcase with ⟨h5, hct, hov⟩ | h4
    · rw [runAttempts.eq_def]
      dsimp only
      rw [if_neg (by omega : ¬ r.status < 400)]
      rw [if_neg (by simp [hwaf] : ¬ hasWafMarker r.text = true)]
      rw [if_pos h5, hct]
      rw [if_pos rfl, hp]
      dsimp only
      rw [if_neg (by simp [hov] : ¬ overloadMsg err = true), if_pos hau]
    · rw [runAttempts.eq_def]
      dsimp only
      rw [if_neg (by omega : ¬ r.status < 400)]
      rw [if_neg (by simp [hwaf] : ¬ hasWafMarker r.text = true)]
      rw [if_neg (by omega : ¬ 500 ≤ r.status)]
      rw [if_pos h4, hp]
      dsimp only
      rw [if_pos hau]
  refine ⟨?_, ?_, ?_⟩
  · intro fuel e sc tr hne
    have hcond : (record_attempt e false false none none).sys.nonessential = false
        ∧ false = false := ⟨by rw [record_sys]; exact hne, rfl⟩
    refine ⟨?_, ?_, rfl, rfl, ?_⟩
    · intro hf
      rw [hred false fuel e sc tr, if_pos hcond, if_pos hf]
    · rw [hred false 0 e sc tr, if_pos hcond, if_neg (by omega : ¬ (0:Nat) < 0)]
    · simp [authFlip, record_attempt]
  · intro isProbe fuel e sc tr hor
    have hcond : ¬ ((record_attempt e isProbe false none none).sys.nonessential = false
        ∧ isProbe = false) := by
      rcases hor with h | h
      · intro hc
        rw [record_sys] at hc
        rw [h] at hc
        exact absurd hc.1 (by simp)
      · intro hc
        rw [h] at hc
        exact absurd hc.2 (by simp)
    refine ⟨?_, add_pending_mem _ u k⟩
    rw [hred isProbe fuel e sc tr, if_neg hcond]
  · intro urls keys sys0 sc h
    exact runEngine_latch now urls keys sys0 sc h

/-- Witness for C3 (amended): a first-slot 401 with the latch down retries
the same (URL, key) with the latch flipped and the budget refunded. -/
theorem C3_auth_amended_witness :
    (runAttempts 0 "u1" "k1" false (1 + 1) (engInit emptySt)
      [ScriptItem.resp auth401, ScriptItem.resp ok200] [] =
      runAttempts 0 "u1" "k1" false 1
        (authFlip (record_attempt (engInit emptySt) false false none none))
        [ScriptItem.resp ok200] ([] ++ [⟨"u1", "k1", false⟩])) ∧
    (authFlip (record_attempt (engInit emptySt) false false none none)).sys.nonessential
      = true ∧
    (authFlip (record_attempt (engInit emptySt) false false none none)).full_context_attempts
      = (engInit emptySt).full_context_attempts := by
  have h := C3_auth_amended 0 "u1" "k1" auth401 ⟨[], "authentication_error"⟩
    rfl (Or.inr (Or.inl rfl)) rfl (by decide)
  have ha := h.1 1 (engInit emptySt) [ScriptItem.resp ok200] [] rfl
  exact ⟨ha.1 (by omega), ha.2.2.1, ha.2.2.2.2⟩
